import Mathlib

/-!
# stilt: configuration merge, secret resolution and compose synthesis

A shallow embedding of `cmd/main.go`.

Conventions of the embedding.

* A Go `string` is a Lean `String`; the text operations used by the program
  (`strings.HasPrefix`, `strings.Split`, ...) only look for ASCII
  separators, so working on characters agrees with working on bytes.
* A Go `map[string]V` is a `GoMap V`: the list of its entries.  When a map is
  an input that the program ranges over, the list is the order in which the
  `range` loop visits the entries (Go leaves that order open, so theorems
  quantify over every list).  When a map is built by the program, `GoMap.set`
  is the assignment `m[k] = v` and `GoMap.get` the read `m[k]`.
* A run-time panic is the result `none`.
* The Go `int` is the 64-bit integer; the only place where its range matters
  is `strconv.Atoi`, which clamps to it.
* `crypto/rand` is a stream of bytes given as a function of the position; a
  run threads the position through its calls of `generateRandomString`.
  A read that fails aborts the process, as `crypto/rand.Read` does since
  Go 1.24.
* Memory is finite: a `Runtime` carries the largest buffer that
  `make([]byte, n)` can allocate.
-/

namespace Stilt

/-! ## Go maps -/

/-- Entries of a Go map with string keys. -/
abbrev GoMap (V : Type) := List (String × V)

namespace GoMap

/-- Read `m[k]` in its two-result form: the value when the key is present. -/
def get {V : Type} : GoMap V → String → Option V
  | [], _ => none
  | (k', v) :: m, k => if k' = k then some v else get m k

/-- Assignment `m[k] = v`: replaces the value of a present key, adds the
entry otherwise. -/
def set {V : Type} : GoMap V → String → V → GoMap V
  | [], k, v => [(k, v)]
  | (k', v') :: m, k, v => if k' = k then (k, v) :: m else (k', v') :: set m k v

/-- Keys of the map. -/
def keys {V : Type} (m : GoMap V) : List String := m.map Prod.fst

end GoMap

/-! ## Data model -/

/-- Go struct `DependencyConfig`. -/
structure DependencyConfig where
  Image : String
  Version : String
  Internal : Bool
  Expose : Int
  Environment : GoMap String
  deriving DecidableEq, Repr

/-- Go struct `ServiceConfig`. -/
structure ServiceConfig where
  Image : String
  Version : String
  Ports : List String
  Environment : GoMap String
  Dependencies : GoMap DependencyConfig
  Command : String
  deriving DecidableEq, Repr

/-- Go struct `ComposeService`. -/
structure ComposeService where
  Image : String
  Ports : List String
  Expose : List String
  Environment : GoMap String
  Networks : List String
  Restart : String
  Command : String
  DependsOn : List String
  deriving DecidableEq, Repr

/-- Go struct `ComposeConfig`. -/
structure ComposeConfig where
  Version : String
  Services : GoMap ComposeService
  Networks : GoMap (GoMap Bool)
  deriving DecidableEq, Repr

/-! ## `main`: enablement filter and port overrides -/

/-- Read `plugins[name]` of a `map[string]bool`: `false` for a missing key. -/
def pluginEnabled (plugins : GoMap Bool) (name : String) : Bool :=
  (plugins.get name).getD false

/-- Read `portsConf[name]` in its two-result form; `portsConf` is `none` for
the nil map that `loadPortConfig` returns when the file cannot be read. -/
def portOverride (portsConf : Option (GoMap (List String))) (name : String) :
    Option (List String) :=
  match portsConf with
  | none => none
  | some m => m.get name

/-- One iteration of the loop of `main` that builds `filtered`. -/
def mainFilterStep (portsConf : Option (GoMap (List String))) (plugins : GoMap Bool)
    (filtered : GoMap ServiceConfig) (entry : String × ServiceConfig) : GoMap ServiceConfig :=
  if !pluginEnabled plugins entry.1 then filtered
  else
    match portOverride portsConf entry.1 with
    | some p => filtered.set entry.1 { entry.2 with Ports := p }
    | none => filtered.set entry.1 entry.2

/-- The map `filtered` of `main` (lines 55-65): the catalog filtered by the
enabled plugins, with the port overrides applied. -/
def mainFiltered (services : GoMap ServiceConfig) (portsConf : Option (GoMap (List String)))
    (plugins : GoMap Bool) : GoMap ServiceConfig :=
  services.foldl (mainFilterStep portsConf plugins) []

/-! ## Strings -/

/-- Go `strings.HasPrefix`. -/
def hasPrefix (s p : String) : Bool := p.data.isPrefixOf s.data

/-- Go `strings.HasSuffix`. -/
def hasSuffix (s p : String) : Bool := p.data.isSuffixOf s.data

/-- Go `strings.TrimPrefix`: `s` without the leading `p`, or `s` itself. -/
def trimPrefix (s p : String) : String :=
  if hasPrefix s p then String.mk (s.data.drop p.data.length) else s

/-- Go `strings.TrimSuffix`: `s` without the trailing `p`, or `s` itself. -/
def trimSuffix (s p : String) : String :=
  if hasSuffix s p then String.mk (s.data.take (s.data.length - p.data.length)) else s

/-- Pieces of a text between the occurrences of the separator `c`
(Go `strings.Split` with a one-character separator). -/
def splitOnChar (c : Char) : List Char → List (List Char)
  | [] => [[]]
  | x :: xs =>
    if x = c then [] :: splitOnChar c xs
    else
      match splitOnChar c xs with
      | [] => [[x]]
      | piece :: rest => (x :: piece) :: rest

/-- Go `strings.Split(s, "\n")`. -/
def splitLines (s : String) : List String :=
  (splitOnChar '\n' s.data).map String.mk

/-- Text before and after the first occurrence of `c`, if there is one. -/
def cutAt (c : Char) : List Char → Option (List Char × List Char)
  | [] => none
  | x :: xs =>
    if x = c then some ([], xs)
    else
      match cutAt c xs with
      | none => none
      | some (a, b) => some (x :: a, b)

/-- Go `strings.SplitN(line, "=", 2)`: two parts when the line holds a `=`,
the line alone otherwise. -/
def splitN2 (line : String) : List String :=
  match cutAt '=' line.data with
  | some (a, b) => [String.mk a, String.mk b]
  | none => [line]

/-- Value of a decimal digit. -/
def digitVal (c : Char) : Option Nat :=
  if 48 ≤ c.toNat ∧ c.toNat ≤ 57 then some (c.toNat - 48) else none

/-- Outcome of `strconv.ParseUint`. -/
inductive UintResult where
  | syntaxErr : UintResult
  | rangeErr : UintResult
  | ok : Nat → UintResult
  deriving DecidableEq, Repr

/-- The digit loop of `strconv.ParseUint` in base 10 on 64 bits: it stops at
the first character that is no digit (syntax error) and at the first
overflow (range error), whichever comes first. -/
def parseUintDigits (n : Nat) : List Char → UintResult
  | [] => UintResult.ok n
  | c :: cs =>
    match digitVal c with
    | none => UintResult.syntaxErr
    | some d =>
      if n ≥ (2 ^ 64 - 1) / 10 + 1 then UintResult.rangeErr
      else if n * 10 + d > 2 ^ 64 - 1 then UintResult.rangeErr
      else parseUintDigits (n * 10 + d) cs

/-- Go `strconv.Atoi` with its error result dropped (`n, _ := strconv.Atoi(val)`),
for the 64-bit `int`: the value is 0 on a syntax error and the nearest bound
of the `int` range on a range error. -/
def atoi (s : String) : Int :=
  let signed : Bool × List Char :=
    match s.data with
    | '+' :: r => (false, r)
    | '-' :: r => (true, r)
    | r => (false, r)
  match signed.2 with
  | [] => 0
  | ds =>
    match parseUintDigits 0 ds with
    | UintResult.syntaxErr => 0
    | UintResult.rangeErr => if signed.1 then -(2 ^ 63) else 2 ^ 63 - 1
    | UintResult.ok un =>
      if signed.1 then (if un > 2 ^ 63 then -(2 ^ 63) else -(un : Int))
      else (if un ≥ 2 ^ 63 then 2 ^ 63 - 1 else (un : Int))

/-- Go `strconv.Itoa`. -/
def itoa (n : Int) : String := toString n

/-! ## Secrets -/

/-- The sentinel that opens a secret placeholder: two opening braces and
`GENERATE_`. -/
def generatePrefix : String := "\x7b\x7bGENERATE_"

/-- The two closing braces that end a secret placeholder. -/
def generateSuffix : String := "\x7d\x7d"

/-- Go `parseLength`. -/
def parseLength (s : String) : Int :=
  atoi (trimSuffix (trimPrefix s generatePrefix) generateSuffix)

/-- The entropy source behind `crypto/rand`: the byte it yields at each
position of its stream, `none` from where reading fails. -/
abbrev RandSource := Nat → Option Nat

/-- What a run takes from the machine it runs on: the entropy source, and the
largest length `n` for which `make([]byte, n)` yields a buffer (for a longer
one the allocation panics, or the process dies out of memory). -/
structure Runtime where
  rand : RandSource
  allocLimit : Nat

/-- Go `rand.Read(b)` for a buffer of `n` bytes, from position `pos` of the
entropy stream: the bytes read, or `none` when one of them cannot be read.
`crypto/rand.Read` (Go 1.24 and later) never returns an error: it fills the
whole buffer or aborts the process. -/
def randRead (src : RandSource) : Nat → Nat → Option (List Nat)
  | _, 0 => some []
  | pos, n + 1 =>
    match src pos with
    | none => none
    | some b =>
      match randRead src (pos + 1) n with
      | none => none
      | some bs => some (b % 256 :: bs)

/-- One lowercase hexadecimal digit. -/
def hexDigit (n : Nat) : Char := "0123456789abcdef".data.getD n '0'

/-- Go `fmt.Sprintf("%x", b)` for a byte slice. -/
def hexEncode : List Nat → List Char
  | [] => []
  | b :: bs => hexDigit (b / 16) :: hexDigit (b % 16) :: hexEncode bs

/-- Go `generateRandomString`: `make([]byte, n)` panics for a negative `n`
and for an `n` above what can be allocated; `rand.Read` fills the buffer or
aborts the process, so there is no error result to look at; the hex text of
`n` bytes has `2 * n` characters, so the slice `[:n]` is in range.  The
result is the secret and the position of the entropy stream after the read;
`none` is a run that does not return. -/
def generateRandomString (rt : Runtime) (pos : Nat) (n : Int) : Option (String × Nat) :=
  if n < 0 ∨ n.toNat > rt.allocLimit then none
  else
    match randRead rt.rand pos n.toNat with
    | none => none
    | some b => some (String.mk ((hexEncode b).take n.toNat), pos + n.toNat)

/-- State of one run of `generateEnvVars`: the maps `existing` and `env`,
the position in the entropy stream, and the record of the calls of
`generateRandomString` made so far (name, requested length, secret). -/
structure EnvState where
  existing : GoMap String
  env : GoMap String
  pos : Nat
  generated : List (String × Int × String)
  deriving DecidableEq, Repr

/-- State at the start of the loops of `generateEnvVars`: `existing` as
loaded, `env` empty. -/
def startState (existing : GoMap String) : EnvState :=
  { existing := existing, env := [], pos := 0, generated := [] }

/-- Body of the two inner loops of `generateEnvVars` (lines 123-130 and
135-142, which are the same statements) for one pair `k, v`. -/
def resolveVar (rt : Runtime) (st : EnvState) (kv : String × String) : Option EnvState :=
  if hasPrefix kv.2 generatePrefix then
    match st.existing.get kv.1 with
    | some x => some { st with env := st.env.set kv.1 x }
    | none =>
      match generateRandomString rt st.pos (parseLength kv.2) with
      | none => none
      | some (secret, pos) =>
        some { existing := st.existing.set kv.1 secret
               env := st.env.set kv.1 secret
               pos := pos
               generated := st.generated ++ [(kv.1, parseLength kv.2, secret)] }
  else some { st with env := st.env.set kv.1 kv.2 }

/-- Loop over one environment map. -/
def resolveEnvironment (rt : Runtime) (st : EnvState) (environment : GoMap String) :
    Option EnvState :=
  environment.foldlM (resolveVar rt) st

/-- Body of the outer loop of `generateEnvVars` for one service: its own
environment, then the environment of each dependency. -/
def resolveService (rt : Runtime) (st : EnvState) (entry : String × ServiceConfig) :
    Option EnvState :=
  match resolveEnvironment rt st entry.2.Environment with
  | none => none
  | some st1 =>
    entry.2.Dependencies.foldlM (fun s dep => resolveEnvironment rt s dep.2.Environment) st1

/-- The loops of `generateEnvVars` from a given content of `existing`. -/
def generateEnvVarsFrom (existing : GoMap String) (rt : Runtime)
    (services : GoMap ServiceConfig) : Option EnvState :=
  services.foldlM (resolveService rt) (startState existing)

/-- Body of the loop of `loadDotEnv` for one line: the line is kept when
`SplitN` yields two parts. -/
def loadLine (env : GoMap String) (line : String) : GoMap String :=
  match splitN2 line with
  | [name, value] => env.set name value
  | _ => env

/-- Go `loadDotEnv`; `file` is the content of `.env`, `none` when it cannot
be read. -/
def loadDotEnv (file : Option String) : GoMap String :=
  match file with
  | none => []
  | some data => (splitLines data).foldl loadLine []

/-- Go `generateEnvVars`, with the whole final state of the run. -/
def generateEnvVarsRun (file : Option String) (rt : Runtime)
    (services : GoMap ServiceConfig) : Option EnvState :=
  generateEnvVarsFrom (loadDotEnv file) rt services

/-- Go `generateEnvVars`: the map `env` it returns. -/
def generateEnvVars (file : Option String) (rt : Runtime)
    (services : GoMap ServiceConfig) : Option (GoMap String) :=
  (generateEnvVarsRun file rt services).map EnvState.env

/-- Go `writeEnvFile`: the text written to `.env` when the `range` loop
visits the entries of `env` in the order of the list. -/
def writeEnvFile (env : GoMap String) : String :=
  env.foldl (fun b kv => b ++ (kv.1 ++ "=" ++ kv.2 ++ "\n")) ""

/-- All pairs `name, value` that `generateEnvVars` visits, in the order of
the visit. -/
def declaredVars (services : GoMap ServiceConfig) : List (String × String) :=
  services.flatMap (fun entry =>
    entry.2.Environment ++ entry.2.Dependencies.flatMap (fun dep => dep.2.Environment))

/-- The two inner loops of `generateEnvVars` run over a sequence of pairs. -/
def resolveAll (rt : Runtime) (st : EnvState) (vars : List (String × String)) :
    Option EnvState :=
  vars.foldlM (resolveVar rt) st

/-- No value of the map holds a newline. -/
def noNewlineValues (m : GoMap String) : Prop :=
  ∀ k x, m.get k = some x → '\n' ∉ x.data

/-! ## Compose synthesis -/

/-- Go `DependencyConfig.ImageOrKey`. -/
def DependencyConfig.ImageOrKey (d : DependencyConfig) : String :=
  if d.Image ≠ "" then d.Image else ""

/-- Read `env[k]` of a `map[string]string`: the empty string for a missing key. -/
def envValue (env : GoMap String) (k : String) : String := (env.get k).getD ""

/-- The map built by `for k := range environment { m[k] = env[k] }`. -/
def copyEnv (env : GoMap String) (m : GoMap String) (environment : GoMap String) : GoMap String :=
  environment.foldl (fun acc kv => acc.set kv.1 (envValue env kv.1)) m

/-- The entry `cs` of a service after lines 195-197 for one dependency: the
hidden name joins `DependsOn`, and the host and port variables are set. -/
def wireDependency (toUpper : String → String) (name : String) (cs : ComposeService)
    (dep : String × DependencyConfig) : ComposeService :=
  { cs with
    DependsOn := cs.DependsOn ++ [name ++ "_" ++ dep.1]
    Environment :=
      (cs.Environment.set (toUpper dep.1 ++ "_HOST") (name ++ "_" ++ dep.1)).set
        (toUpper dep.1 ++ "_PORT") (itoa dep.2.Expose) }

/-- The entry of the hidden dependency service (lines 200-211). -/
def hiddenService (env : GoMap String) (svcNet : String) (dep : String × DependencyConfig) :
    ComposeService :=
  { Image := dep.2.ImageOrKey ++ ":" ++ dep.2.Version
    Ports := []
    Expose := [itoa dep.2.Expose]
    Environment := copyEnv env [] dep.2.Environment
    Networks := [svcNet]
    Restart := "always"
    Command := ""
    DependsOn := [] }

/-- Body of the loop over the dependencies of one service in `buildCompose`
(lines 193-212): the state is the entry `cs` of the service and the map
`cfg.Services`. -/
def buildDependency (toUpper : String → String) (env : GoMap String) (name svcNet : String)
    (acc : ComposeService × GoMap ComposeService) (dep : String × DependencyConfig) :
    ComposeService × GoMap ComposeService :=
  (wireDependency toUpper name acc.1 dep,
    acc.2.set (name ++ "_" ++ dep.1) (hiddenService env svcNet dep))

/-- Body of the loop over the services in `buildCompose` (lines 177-219). -/
def buildService (toUpper : String → String) (env : GoMap String) (cfg : ComposeConfig)
    (entry : String × ServiceConfig) : ComposeConfig :=
  let svcNet := entry.1 ++ "_internal"
  let networks : GoMap (GoMap Bool) :=
    if entry.2.Dependencies.length > 0 then cfg.Networks.set svcNet [("internal", true)]
    else cfg.Networks
  let cs : ComposeService :=
    { Image := entry.2.Image ++ ":" ++ entry.2.Version
      Ports := entry.2.Ports
      Expose := []
      Environment := []
      Networks := ["default"]
      Restart := "always"
      Command := entry.2.Command
      DependsOn := [] }
  let wired : ComposeService × GoMap ComposeService :=
    if entry.2.Dependencies.length > 0 then
      entry.2.Dependencies.foldl (buildDependency toUpper env entry.1 svcNet)
        ({ cs with Networks := cs.Networks ++ [svcNet] }, cfg.Services)
    else (cs, cfg.Services)
  let own : ComposeService :=
    { wired.1 with Environment := copyEnv env wired.1.Environment entry.2.Environment }
  { cfg with Services := wired.2.set entry.1 own, Networks := networks }

/-- Go `buildCompose`.  `toUpper` stands for `strings.ToUpper`. -/
def buildCompose (toUpper : String → String) (services : GoMap ServiceConfig)
    (env : GoMap String) : ComposeConfig :=
  services.foldl (buildService toUpper env)
    { Version := "", Services := [], Networks := [("default", [])] }

/-- Upper-casing of the ASCII letters, on which `strings.ToUpper` agrees. -/
def asciiUpper (s : String) : String := String.mk (s.data.map Char.toUpper)

/-! ## The maps of the descriptor as sequences of assignments -/

/-- The map after the assignments `m[w.1] = w.2` for the entries of `ws` in order. -/
def GoMap.setAll {V : Type} (m : GoMap V) (ws : List (String × V)) : GoMap V :=
  ws.foldl (fun acc w => acc.set w.1 w.2) m

/-- Assignments to `cfg.Services` for the hidden services of one service. -/
def hiddenWrites (env : GoMap String) (entry : String × ServiceConfig) :
    List (String × ComposeService) :=
  entry.2.Dependencies.map
    (fun dep => (entry.1 ++ "_" ++ dep.1, hiddenService env (entry.1 ++ "_internal") dep))

/-- Assignments to `cs.Environment` made while the dependencies are wired. -/
def wireWrites (toUpper : String → String) (name : String) (deps : GoMap DependencyConfig) :
    List (String × String) :=
  deps.flatMap (fun dep =>
    [(toUpper dep.1 ++ "_HOST", name ++ "_" ++ dep.1), (toUpper dep.1 ++ "_PORT", itoa dep.2.Expose)])

/-- Assignments made by `for k := range environment { m[k] = env[k] }`. -/
def copyWrites (env : GoMap String) (environment : GoMap String) : List (String × String) :=
  environment.map (fun kv => (kv.1, envValue env kv.1))

/-- The entry that `buildCompose` stores under the name of a service. -/
def ownService (toUpper : String → String) (env : GoMap String)
    (entry : String × ServiceConfig) : ComposeService :=
  { Image := entry.2.Image ++ ":" ++ entry.2.Version
    Ports := entry.2.Ports
    Expose := []
    Environment :=
      GoMap.setAll [] (wireWrites toUpper entry.1 entry.2.Dependencies ++
        copyWrites env entry.2.Environment)
    Networks :=
      if entry.2.Dependencies.length > 0 then ["default", entry.1 ++ "_internal"]
      else ["default"]
    Restart := "always"
    Command := entry.2.Command
    DependsOn := entry.2.Dependencies.map (fun dep => entry.1 ++ "_" ++ dep.1) }

/-- All assignments to `cfg.Services` of one run of `buildCompose`, in order. -/
def serviceWrites (toUpper : String → String) (env : GoMap String)
    (services : GoMap ServiceConfig) : List (String × ComposeService) :=
  services.flatMap (fun entry => hiddenWrites env entry ++ [(entry.1, ownService toUpper env entry)])

/-- All assignments to `cfg.Networks` of one run of `buildCompose`, in order. -/
def networkWrites (services : GoMap ServiceConfig) : List (String × GoMap Bool) :=
  services.flatMap (fun entry =>
    if entry.2.Dependencies.length > 0 then [(entry.1 ++ "_internal", [("internal", true)])]
    else [])

/-! ## Concrete inputs -/

/-- The placeholder text that requests a secret of the length written in `n`. -/
def placeholder (n : String) : String := generatePrefix ++ n ++ generateSuffix

/-- Catalog of the C2 witness: one service with catalog ports. -/
def c2Catalog : GoMap ServiceConfig :=
  [("web", { Image := "nginx", Version := "1.25", Ports := ["80:80", "443:443"],
             Environment := [], Dependencies := [], Command := "" })]

/-- A dependency of the C5 and C7 inputs. -/
def exampleDb : DependencyConfig :=
  { Image := "postgres", Version := "14", Internal := true, Expose := 5432, Environment := [] }

/-- Service `web` of the C5 inputs: one dependency under the key `db`. -/
def c5Web : ServiceConfig :=
  { Image := "app", Version := "1.0", Ports := [], Environment := [],
    Dependencies := [("db", exampleDb)], Command := "" }

/-- Service without dependencies, stored in the C5 counterexample under the
name `web_db`. -/
def c5Plain : ServiceConfig :=
  { Image := "tool", Version := "2.0", Ports := [], Environment := [],
    Dependencies := [], Command := "" }

/-- Effective set of the C5 counterexample: the name of the second service is
the hidden name of the dependency of the first. -/
def c5Services : GoMap ServiceConfig := [("web", c5Web), ("web_db", c5Plain)]

/-- Dependency `cache` of the C7 inputs. -/
def c7Cache : DependencyConfig :=
  { Image := "redis", Version := "7", Internal := true, Expose := 6379, Environment := [] }

/-- Service `foo` of the C7 witness. -/
def c7Foo : ServiceConfig :=
  { Image := "app", Version := "1.0", Ports := [], Environment := [("MODE", "prod")],
    Dependencies := [("cache", c7Cache)], Command := "" }

/-- Service `foo` of the C7 counterexample: its own environment declares the
name of the injected host variable. -/
def c7FooDeclaresHost : ServiceConfig :=
  { Image := "app", Version := "1.0", Ports := [],
    Environment := [("CACHE_HOST", "redis.example.org")],
    Dependencies := [("cache", c7Cache)], Command := "" }

/-- An entropy source that never fails. -/
def exampleSrc : RandSource := fun i => some (i * 37 + 5)

/-- A machine with that entropy source; buffers of up to 2^48 bytes can be
allocated (the bound `maxAlloc` of the Go runtime on 64-bit Linux). -/
def exampleRt : Runtime := { rand := exampleSrc, allocLimit := 2 ^ 48 }

/-- Service of the C4 witness: its dependency declares `DB_PASS` with a
placeholder of length 16. -/
def c4Api : ServiceConfig :=
  { Image := "app", Version := "1.0", Ports := [], Environment := [],
    Dependencies := [("db", { exampleDb with Environment := [("DB_PASS", placeholder "16")] })],
    Command := "" }

/-- Service of the C9 counterexample: it declares `DB_PASS` with a literal and
its dependency declares the same name with a placeholder. -/
def c9Api : ServiceConfig :=
  { Image := "app", Version := "1.0", Ports := [], Environment := [("DB_PASS", "changeme")],
    Dependencies := [("db", { exampleDb with Environment := [("DB_PASS", placeholder "8")] })],
    Command := "" }

/-- Service of the C9 and C10 witnesses: the service and its dependency both
declare `DB_PASS` with a placeholder, of lengths 8 and 16. -/
def c10Api : ServiceConfig :=
  { Image := "app", Version := "1.0", Ports := [], Environment := [("DB_PASS", placeholder "8")],
    Dependencies := [("db", { exampleDb with Environment := [("DB_PASS", placeholder "16")] })],
    Command := "" }

/-- Service of the first C3 counterexample: a literal value of two lines,
the second of which reads like the line of `API_KEY`. -/
def c3Api : ServiceConfig :=
  { Image := "app", Version := "1.0", Ports := [],
    Environment := [("API_KEY", placeholder "8"), ("EXTRA", "a=1\nAPI_KEY=changeme")],
    Dependencies := [], Command := "" }

/-- Service of the second C3 counterexample: a name that holds `=`. -/
def c3Odd : ServiceConfig :=
  { Image := "app", Version := "1.0", Ports := [],
    Environment := [("DB=PASS", placeholder "8")], Dependencies := [], Command := "" }

/-- A second entropy source, with other bytes than `exampleSrc`. -/
def otherSrc : RandSource := fun i => some (i * 11 + 3)

/-- A machine with the second entropy source. -/
def otherRt : Runtime := { rand := otherSrc, allocLimit := 2 ^ 48 }

/-- An entropy source whose every read fails. -/
def failingSrc : RandSource := fun _ => none

/-- A machine with the failing entropy source. -/
def failingRt : Runtime := { rand := failingSrc, allocLimit := 2 ^ 48 }

/-- Service of the C11 evaluation: a placeholder that requests the length -5. -/
def c11Api : ServiceConfig :=
  { Image := "app", Version := "1.0", Ports := [],
    Environment := [("TOKEN", placeholder "-5")], Dependencies := [], Command := "" }

/-- Service of the C16 witness: the service declares `DB_PASS` with a
placeholder and its dependency declares it with a literal. -/
def c16Api : ServiceConfig :=
  { Image := "app", Version := "1.0", Ports := [], Environment := [("DB_PASS", placeholder "8")],
    Dependencies := [("db", { exampleDb with Environment := [("DB_PASS", "changeme")] })],
    Command := "" }

/-- Service without dependencies that declares `MODE`, stored in the C14 and
C15 counterexamples under the name `web_db`. -/
def c14Plain : ServiceConfig :=
  { Image := "tool", Version := "2.0", Ports := ["9000:9000"], Environment := [("MODE", "prod")],
    Dependencies := [], Command := "" }

/-- Effective set of the C14 and C15 counterexamples: `web_db` is visited
first, then `web`, whose dependency `db` takes the hidden name `web_db`. -/
def c14Services : GoMap ServiceConfig := [("web_db", c14Plain), ("web", c5Web)]

/-- The text of a number without its sign: what `strconv.Atoi` hands to the
digit loop. -/
def stripSign (cs : List Char) : List Char :=
  match cs with
  | '+' :: r => r
  | '-' :: r => r
  | r => r

/-! # Lemmas and theorems -/

/-! ## Lemmas on Go maps -/

namespace GoMap

theorem get_set_self {V : Type} (m : GoMap V) (k : String) (v : V) :
    (m.set k v).get k = some v := by
  induction m with
  | nil => simp [set, get]
  | cons e m ih =>
    obtain ⟨k', v'⟩ := e
    by_cases h : k' = k
    · simp [set, get, h]
    · simp [set, get, h, ih]

theorem get_set_ne {V : Type} (m : GoMap V) (k k' : String) (v : V) (h : k ≠ k') :
    (m.set k v).get k' = m.get k' := by
  induction m with
  | nil => simp [set, get, h]
  | cons e m ih =>
    obtain ⟨k0, v0⟩ := e
    by_cases h0 : k0 = k
    · subst h0
      simp [set, get, h]
    · by_cases h1 : k0 = k'
      · subst h1
        simp [set, get, h0]
      · simp [set, get, h0, h1, ih]

theorem get_set {V : Type} (m : GoMap V) (k k' : String) (v : V) :
    (m.set k v).get k' = if k = k' then some v else m.get k' := by
  by_cases h : k = k'
  · subst h
    simp [get_set_self]
  · simp [h, get_set_ne m k k' v h]

theorem get_isSome_iff {V : Type} (m : GoMap V) (k : String) :
    (m.get k).isSome ↔ k ∈ m.keys := by
  induction m with
  | nil => simp [get, keys]
  | cons e m ih =>
    obtain ⟨k0, v0⟩ := e
    by_cases h0 : k0 = k
    · simp [get, keys, h0]
    · have h1 : ¬ k = k0 := fun h => h0 h.symm
      simp only [get, h0, if_false, ih, keys, List.map_cons, List.mem_cons, h1, false_or]

theorem get_eq_none_iff {V : Type} (m : GoMap V) (k : String) :
    m.get k = none ↔ k ∉ m.keys := by
  rw [← get_isSome_iff]
  cases m.get k <;> simp

theorem mem_keys_set {V : Type} (m : GoMap V) (k k' : String) (v : V) :
    k' ∈ (m.set k v).keys ↔ k' = k ∨ k' ∈ m.keys := by
  rw [← get_isSome_iff, ← get_isSome_iff, get_set]
  by_cases h : k = k'
  · simp [h]
  · have h1 : ¬ k' = k := fun e => h e.symm
    simp [h, h1]

theorem mem_of_get {V : Type} (m : GoMap V) (k : String) (v : V) (h : m.get k = some v) :
    (k, v) ∈ m := by
  induction m with
  | nil => simp [get] at h
  | cons e m ih =>
    obtain ⟨k0, v0⟩ := e
    by_cases h0 : k0 = k
    · simp [get, h0] at h
      simp [h0, h]
    · simp [get, h0] at h
      exact List.mem_cons_of_mem _ (ih h)

theorem get_of_mem {V : Type} (m : GoMap V) (k : String) (v : V) (hnd : m.keys.Nodup)
    (h : (k, v) ∈ m) : m.get k = some v := by
  induction m with
  | nil => simp at h
  | cons e m ih =>
    obtain ⟨k0, v0⟩ := e
    simp only [keys, List.map_cons, List.nodup_cons] at hnd
    rcases List.mem_cons.1 h with h1 | h1
    · cases h1
      simp [get]
    · have hk : k ∈ keys m := List.mem_map.2 ⟨(k, v), h1, rfl⟩
      have h0 : k0 ≠ k := fun e => hnd.1 (e ▸ hk)
      simp only [get, h0, if_false]
      exact ih hnd.2 h1

theorem nodup_set {V : Type} (m : GoMap V) (k : String) (v : V) (hnd : m.keys.Nodup) :
    (m.set k v).keys.Nodup := by
  induction m with
  | nil => simp [set, keys]
  | cons e m ih =>
    obtain ⟨k0, v0⟩ := e
    simp only [keys, List.map_cons, List.nodup_cons] at hnd
    by_cases h0 : k0 = k
    · subst h0
      simp only [set, if_true, keys, List.map_cons, List.nodup_cons]
      exact hnd
    · simp only [set, h0, if_false, keys, List.map_cons, List.nodup_cons]
      refine ⟨?_, ih hnd.2⟩
      intro hmem
      rcases (mem_keys_set m k k0 v).1 hmem with h1 | h1
      · exact h0 h1
      · exact hnd.1 h1

end GoMap

/-! ## Enablement filter and port overrides -/

theorem mainFilterStep_get (portsConf : Option (GoMap (List String))) (plugins : GoMap Bool)
    (filtered : GoMap ServiceConfig) (entry : String × ServiceConfig) (name : String) :
    (mainFilterStep portsConf plugins filtered entry).get name =
      if entry.1 = name ∧ pluginEnabled plugins entry.1 = true then
        some { entry.2 with Ports := (portOverride portsConf entry.1).getD entry.2.Ports }
      else filtered.get name := by
  obtain ⟨k, svc⟩ := entry
  unfold mainFilterStep
  by_cases hen : pluginEnabled plugins k = true
  · by_cases hname : k = name
    · subst hname
      cases hp : portOverride portsConf k <;>
        simp [hen, hp, GoMap.get_set_self]
    · cases hp : portOverride portsConf k <;>
        simp [hen, hname, hp, GoMap.get_set_ne _ _ _ _ hname]
  · simp [hen]

theorem mainFiltered_foldl_isSome (portsConf : Option (GoMap (List String)))
    (plugins : GoMap Bool) (services : GoMap ServiceConfig) (acc : GoMap ServiceConfig)
    (name : String) :
    ((services.foldl (mainFilterStep portsConf plugins) acc).get name).isSome ↔
      (acc.get name).isSome ∨ ((GoMap.get services name).isSome ∧
        pluginEnabled plugins name = true) := by
  induction services generalizing acc with
  | nil => simp [GoMap.get]
  | cons e rest ih =>
    obtain ⟨k, svc⟩ := e
    rw [List.foldl_cons, ih, mainFilterStep_get]
    by_cases hk : k = name
    · subst hk
      by_cases hen : pluginEnabled plugins k = true
      · simp [GoMap.get, hen]
      · simp [GoMap.get, hen]
    · simp [GoMap.get, hk]

theorem mainFiltered_foldl_get (portsConf : Option (GoMap (List String)))
    (plugins : GoMap Bool) (services : GoMap ServiceConfig) (acc : GoMap ServiceConfig)
    (name : String) (svc : ServiceConfig) (hnd : (GoMap.keys services).Nodup)
    (hget : GoMap.get services name = some svc) (hen : pluginEnabled plugins name = true) :
    (services.foldl (mainFilterStep portsConf plugins) acc).get name =
      some { svc with Ports := (portOverride portsConf name).getD svc.Ports } := by
  induction services generalizing acc with
  | nil => simp [GoMap.get] at hget
  | cons e rest ih =>
    obtain ⟨k, s0⟩ := e
    simp only [GoMap.keys, List.map_cons, List.nodup_cons] at hnd
    rw [List.foldl_cons]
    by_cases hk : k = name
    · subst hk
      simp only [GoMap.get, if_true, Option.some.injEq] at hget
      subst hget
      have hnot : ¬ ((GoMap.get rest k).isSome ∧ pluginEnabled plugins k = true) := by
        intro h
        exact hnd.1 ((GoMap.get_isSome_iff rest k).1 h.1)
      have hsome := mainFiltered_foldl_isSome portsConf plugins rest
      -- the remaining entries do not write the key again
      have key : ∀ (l : GoMap ServiceConfig) (a : GoMap ServiceConfig), k ∉ GoMap.keys l →
          (l.foldl (mainFilterStep portsConf plugins) a).get k = a.get k := by
        intro l
        induction l with
        | nil => intro a _; rfl
        | cons e2 l2 ih2 =>
          intro a hk2
          simp only [GoMap.keys, List.map_cons, List.mem_cons, not_or] at hk2
          rw [List.foldl_cons, ih2 _ hk2.2, mainFilterStep_get]
          have hne : ¬ e2.1 = k := fun h => hk2.1 h.symm
          simp [hne]
      rw [key rest _ hnd.1, mainFilterStep_get]
      simp [hen]
    · simp only [GoMap.get, hk, if_false] at hget
      exact ih _ hnd.2 hget

/-- C1: the effective map built in main holds a name exactly when the name is
a key of the catalog and its enablement flag is true; in particular every key
of the effective map is a catalog key. -/
theorem C1_enablement_filter (services : GoMap ServiceConfig)
    (portsConf : Option (GoMap (List String))) (plugins : GoMap Bool) :
    (∀ name : String,
      ((mainFiltered services portsConf plugins).get name).isSome ↔
        ((services.get name).isSome ∧ pluginEnabled plugins name = true)) ∧
    (∀ name : String, name ∈ (mainFiltered services portsConf plugins).keys →
      name ∈ services.keys) := by
  have h : ∀ name : String,
      ((mainFiltered services portsConf plugins).get name).isSome ↔
        ((services.get name).isSome ∧ pluginEnabled plugins name = true) := by
    intro name
    unfold mainFiltered
    rw [mainFiltered_foldl_isSome]
    simp [GoMap.get]
  refine ⟨h, ?_⟩
  intro name hmem
  rw [← GoMap.get_isSome_iff] at hmem ⊢
  exact ((h name).1 hmem).1

/-- C2: for a catalog with distinct keys, a service kept in the effective map
has the override sequence as its ports when the override map has an entry for
its name, the catalog ports when there is none (also for the nil override
map), and in both cases the image, version, environment, dependencies and
command of the catalog entry. -/
theorem C2_port_override (services : GoMap ServiceConfig)
    (portsConf : Option (GoMap (List String))) (plugins : GoMap Bool)
    (name : String) (svc : ServiceConfig)
    (hnd : services.keys.Nodup) (hget : services.get name = some svc)
    (hen : pluginEnabled plugins name = true) :
    ∃ eff : ServiceConfig,
      (mainFiltered services portsConf plugins).get name = some eff ∧
      (∀ p, portOverride portsConf name = some p → eff.Ports = p) ∧
      (portOverride portsConf name = none → eff.Ports = svc.Ports) ∧
      (portsConf = none → eff.Ports = svc.Ports) ∧
      eff.Image = svc.Image ∧ eff.Version = svc.Version ∧
      eff.Environment = svc.Environment ∧ eff.Dependencies = svc.Dependencies ∧
      eff.Command = svc.Command := by
  refine ⟨{ svc with Ports := (portOverride portsConf name).getD svc.Ports }, ?_, ?_, ?_, ?_,
    rfl, rfl, rfl, rfl, rfl⟩
  · exact mainFiltered_foldl_get portsConf plugins services [] name svc hnd hget hen
  · intro p hp
    simp [hp]
  · intro hp
    simp [hp]
  · intro hp
    subst hp
    simp [portOverride]

/-- Witness of C2: an empty override replaces the catalog ports of an enabled
service. -/
theorem C2_port_override_witness :
    ∃ eff : ServiceConfig,
      (mainFiltered c2Catalog (some [("web", [])]) [("web", true)]).get "web" = some eff ∧
      eff.Ports = [] := by
  obtain ⟨eff, h1, h2, _⟩ :=
    C2_port_override c2Catalog (some [("web", [])]) [("web", true)] "web"
      { Image := "nginx", Version := "1.25", Ports := ["80:80", "443:443"],
        Environment := [], Dependencies := [], Command := "" }
      (by decide) (by decide) (by decide)
  exact ⟨eff, h1, h2 [] (by decide)⟩

/-! ## Random secrets -/

/-- A read that succeeds yields as many bytes as were asked for, the bytes of
the stream from the position of the read. -/
theorem randRead_some (src : RandSource) (n : Nat) : ∀ (pos : Nat) (b : List Nat),
    randRead src pos n = some b →
      b.length = n ∧ ∀ j < n, ∃ x, src (pos + j) = some x ∧ b[j]? = some (x % 256) := by
  induction n with
  | zero =>
    intro pos b h
    simp only [randRead, Option.some.injEq] at h
    subst h
    exact ⟨rfl, fun j hj => absurd hj (Nat.not_lt_zero j)⟩
  | succ n ih =>
    intro pos b h
    unfold randRead at h
    cases hx : src pos with
    | none => simp [hx] at h
    | some x =>
      simp only [hx] at h
      cases hr : randRead src (pos + 1) n with
      | none => simp [hr] at h
      | some bs =>
        simp only [hr, Option.some.injEq] at h
        subst h
        obtain ⟨hlen, hbytes⟩ := ih (pos + 1) bs hr
        refine ⟨by simp [hlen], ?_⟩
        intro j hj
        cases j with
        | zero => exact ⟨x, hx, by simp⟩
        | succ k =>
          obtain ⟨y, hy, hk⟩ := hbytes k (by omega)
          refine ⟨y, ?_, ?_⟩
          · rw [← hy]
            congr 1
            omega
          · simpa using hk

theorem length_hexEncode (b : List Nat) : (hexEncode b).length = 2 * b.length := by
  induction b with
  | nil => simp [hexEncode]
  | cons x xs ih => simp [hexEncode, ih]; omega

theorem hexDigit_mem (k : Nat) : hexDigit k ∈ "0123456789abcdef".data := by
  by_cases h : k < 16
  · interval_cases k <;> decide
  · have h16 : "0123456789abcdef".data.length ≤ k := by
      have : "0123456789abcdef".data.length = 16 := by decide
      omega
    unfold hexDigit
    rw [List.getD_eq_default _ _ h16]
    decide

theorem hexEncode_mem (b : List Nat) : ∀ c ∈ hexEncode b, c ∈ "0123456789abcdef".data := by
  induction b with
  | nil => simp [hexEncode]
  | cons x xs ih =>
    intro c hc
    simp only [hexEncode, List.mem_cons] at hc
    rcases hc with h | h | h
    · exact h ▸ hexDigit_mem _
    · exact h ▸ hexDigit_mem _
    · exact ih c h

/-- What a returned secret is: the length is in the range that can be
allocated, the read has succeeded, and the secret is the start of the hex
text of the bytes read. -/
theorem generateRandomString_built (rt : Runtime) (pos : Nat) (n : Int) (s : String) (p : Nat)
    (h : generateRandomString rt pos n = some (s, p)) :
    0 ≤ n ∧ n.toNat ≤ rt.allocLimit ∧ p = pos + n.toNat ∧
    ∃ b, randRead rt.rand pos n.toNat = some b ∧
      s = String.mk ((hexEncode b).take n.toNat) := by
  unfold generateRandomString at h
  by_cases hn : n < 0 ∨ n.toNat > rt.allocLimit
  · rw [if_pos hn] at h
    cases h
  · rw [if_neg hn] at h
    have hn2 : ¬ n < 0 ∧ ¬ n.toNat > rt.allocLimit := not_or.1 hn
    cases hr : randRead rt.rand pos n.toNat with
    | none => simp [hr] at h
    | some b =>
      simp only [hr, Option.some.injEq, Prod.mk.injEq] at h
      exact ⟨by omega, by omega, h.2.symm, b, rfl, h.1.symm⟩

theorem generateRandomString_some (rt : Runtime) (pos : Nat) (n : Int) (s : String)
    (p : Nat) (h : generateRandomString rt pos n = some (s, p)) :
    0 ≤ n ∧ (s.length : Int) = n ∧ ∀ c ∈ s.data, c ∈ "0123456789abcdef".data := by
  obtain ⟨h0, _, _, b, hb, hs⟩ := generateRandomString_built rt pos n s p h
  obtain ⟨hlen, _⟩ := randRead_some rt.rand n.toNat pos b hb
  subst hs
  refine ⟨h0, ?_, ?_⟩
  · show (((hexEncode b).take n.toNat).length : Int) = n
    rw [List.length_take, length_hexEncode, hlen]
    omega
  · intro c hc
    exact hexEncode_mem _ c (List.mem_of_mem_take hc)

/-- The length 0 gives the empty string on every machine. -/
theorem generateRandomString_zero (rt : Runtime) (pos : Nat) :
    generateRandomString rt pos 0 = some (String.mk [], pos) := by
  simp [generateRandomString, randRead]

theorem GoMap.setAll_nil {V : Type} (m : GoMap V) : GoMap.setAll m [] = m := rfl

theorem GoMap.setAll_cons {V : Type} (m : GoMap V) (w : String × V) (ws : List (String × V)) :
    GoMap.setAll m (w :: ws) = GoMap.setAll (m.set w.1 w.2) ws := rfl

theorem GoMap.setAll_append {V : Type} (m : GoMap V) (a b : List (String × V)) :
    GoMap.setAll m (a ++ b) = GoMap.setAll (GoMap.setAll m a) b := by
  simp [GoMap.setAll, List.foldl_append]

/-- After a sequence of assignments a key holds either what it held before,
when no assignment names it, or the value of one of the assignments that
name it. -/
theorem GoMap.setAll_get_cases {V : Type} (ws : List (String × V)) (m : GoMap V) (k : String) :
    ((GoMap.setAll m ws).get k = m.get k ∧ ∀ w ∈ ws, w.1 ≠ k) ∨
    (∃ w ∈ ws, w.1 = k ∧ (GoMap.setAll m ws).get k = some w.2) := by
  induction ws generalizing m with
  | nil => left; simp [GoMap.setAll]
  | cons w ws ih =>
    rw [GoMap.setAll_cons]
    rcases ih (m.set w.1 w.2) with ⟨h1, h2⟩ | ⟨w', hw', hk, hget⟩
    · by_cases hw : w.1 = k
      · right
        refine ⟨w, List.mem_cons_self _ _, hw, ?_⟩
        rw [h1, ← hw, GoMap.get_set_self]
      · left
        refine ⟨?_, ?_⟩
        · rw [h1, GoMap.get_set_ne _ _ _ _ hw]
        · intro x hx
          rcases List.mem_cons.1 hx with h | h
          · exact h ▸ hw
          · exact h2 x h
    · right
      exact ⟨w', List.mem_cons_of_mem _ hw', hk, hget⟩

/-- The value of the last assignment wins. -/
theorem GoMap.setAll_get_last {V : Type} (ws : List (String × V)) (m : GoMap V)
    (w : String × V) : (GoMap.setAll m (ws ++ [w])).get w.1 = some w.2 := by
  rw [GoMap.setAll_append, GoMap.setAll_cons, GoMap.setAll_nil, GoMap.get_set_self]

theorem GoMap.setAll_keys {V : Type} (ws : List (String × V)) (m : GoMap V) (k : String) :
    k ∈ (GoMap.setAll m ws).keys ↔ k ∈ m.keys ∨ k ∈ ws.map Prod.fst := by
  induction ws generalizing m with
  | nil => simp [GoMap.setAll]
  | cons w ws ih =>
    rw [GoMap.setAll_cons, ih, GoMap.mem_keys_set]
    simp only [List.map_cons, List.mem_cons]
    tauto

theorem GoMap.setAll_nodup {V : Type} (ws : List (String × V)) (m : GoMap V)
    (h : m.keys.Nodup) : (GoMap.setAll m ws).keys.Nodup := by
  induction ws generalizing m with
  | nil => exact h
  | cons w ws ih =>
    rw [GoMap.setAll_cons]
    exact ih _ (GoMap.nodup_set m w.1 w.2 h)

/-! ## Text -/

theorem str_append_right_cancel (a b s : String) (h : a ++ s = b ++ s) : a = b := by
  have h1 := congrArg String.data h
  simp only [String.data_append] at h1
  exact String.ext (List.append_cancel_right h1)

theorem str_append_left_cancel (a b s : String) (h : s ++ a = s ++ b) : a = b := by
  have h1 := congrArg String.data h
  simp only [String.data_append] at h1
  exact String.ext (List.append_cancel_left h1)

theorem internal_ne_default (name : String) : name ++ "_internal" ≠ "default" := by
  intro h
  have h1 := congrArg String.length h
  simp only [String.length_append] at h1
  have h2 : "_internal".length = 9 := by decide
  have h3 : "default".length = 7 := by decide
  omega

theorem host_ne_port (a b : String) : a ++ "_HOST" ≠ b ++ "_PORT" := by
  intro h
  have h1 := congrArg String.data h
  simp only [String.data_append] at h1
  have h2 := (List.append_inj' h1 (by decide)).2
  revert h2
  decide

/-! ## Structure of the descriptor -/

theorem copyEnv_eq (env m environment : GoMap String) :
    copyEnv env m environment = GoMap.setAll m (copyWrites env environment) := by
  unfold copyEnv copyWrites GoMap.setAll
  rw [List.foldl_map]

theorem foldl_buildDependency (toUpper : String → String) (env : GoMap String)
    (name svcNet : String) (deps : GoMap DependencyConfig) (cs : ComposeService)
    (m : GoMap ComposeService) :
    deps.foldl (buildDependency toUpper env name svcNet) (cs, m) =
      (deps.foldl (wireDependency toUpper name) cs,
        GoMap.setAll m (deps.map (fun dep => (name ++ "_" ++ dep.1, hiddenService env svcNet dep)))) := by
  induction deps generalizing cs m with
  | nil => rfl
  | cons d ds ih =>
    simp only [List.foldl_cons, List.map_cons, GoMap.setAll_cons]
    rw [show buildDependency toUpper env name svcNet (cs, m) d =
      (wireDependency toUpper name cs d, m.set (name ++ "_" ++ d.1) (hiddenService env svcNet d))
      from rfl]
    exact ih _ _

theorem foldl_wireDependency (toUpper : String → String) (name : String)
    (deps : GoMap DependencyConfig) (cs : ComposeService) :
    deps.foldl (wireDependency toUpper name) cs =
      { cs with
        DependsOn := cs.DependsOn ++ deps.map (fun dep => name ++ "_" ++ dep.1)
        Environment := GoMap.setAll cs.Environment (wireWrites toUpper name deps) } := by
  induction deps generalizing cs with
  | nil => simp [wireWrites, GoMap.setAll]
  | cons d ds ih =>
    rw [List.foldl_cons, ih]
    simp [wireDependency, wireWrites, GoMap.setAll, List.flatMap_cons]

theorem buildService_services (toUpper : String → String) (env : GoMap String)
    (cfg : ComposeConfig) (entry : String × ServiceConfig) :
    (buildService toUpper env cfg entry).Services =
      (GoMap.setAll cfg.Services (hiddenWrites env entry)).set entry.1
        (ownService toUpper env entry) := by
  obtain ⟨name, svc⟩ := entry
  unfold buildService
  by_cases hlen : svc.Dependencies.length > 0
  · simp only [hlen, if_true]
    rw [foldl_buildDependency, foldl_wireDependency]
    simp [hiddenWrites, ownService, copyEnv_eq, GoMap.setAll_append, hlen]
  · have hnil : svc.Dependencies = [] := by
      cases hd : svc.Dependencies with
      | nil => rfl
      | cons a l => simp [hd] at hlen
    simp [hiddenWrites, ownService, copyEnv_eq, GoMap.setAll_append, hnil, wireWrites,
      GoMap.setAll]

theorem buildService_networks (toUpper : String → String) (env : GoMap String)
    (cfg : ComposeConfig) (entry : String × ServiceConfig) :
    (buildService toUpper env cfg entry).Networks =
      GoMap.setAll cfg.Networks (networkWrites [entry]) := by
  unfold buildService networkWrites
  by_cases hlen : entry.2.Dependencies.length > 0
  · simp [hlen, GoMap.setAll]
  · simp [hlen, GoMap.setAll]

theorem foldl_buildService (toUpper : String → String) (env : GoMap String)
    (services : GoMap ServiceConfig) (cfg : ComposeConfig) :
    (services.foldl (buildService toUpper env) cfg).Services =
        GoMap.setAll cfg.Services (serviceWrites toUpper env services) ∧
    (services.foldl (buildService toUpper env) cfg).Networks =
        GoMap.setAll cfg.Networks (networkWrites services) := by
  induction services generalizing cfg with
  | nil => exact ⟨rfl, rfl⟩
  | cons e rest ih =>
    rw [List.foldl_cons]
    obtain ⟨h1, h2⟩ := ih (buildService toUpper env cfg e)
    rw [h1, h2, buildService_services, buildService_networks]
    constructor
    · simp only [serviceWrites, List.flatMap_cons, GoMap.setAll_append]
      rfl
    · simp only [networkWrites, List.flatMap_cons, GoMap.setAll_append, List.flatMap_nil,
        List.append_nil]

theorem buildCompose_services (toUpper : String → String) (services : GoMap ServiceConfig)
    (env : GoMap String) :
    (buildCompose toUpper services env).Services =
      GoMap.setAll [] (serviceWrites toUpper env services) :=
  (foldl_buildService toUpper env services _).1

theorem buildCompose_networks (toUpper : String → String) (services : GoMap ServiceConfig)
    (env : GoMap String) :
    (buildCompose toUpper services env).Networks =
      GoMap.setAll [("default", [])] (networkWrites services) :=
  (foldl_buildService toUpper env services _).2

theorem mem_networkWrites (services : GoMap ServiceConfig) (w : String × GoMap Bool) :
    w ∈ networkWrites services ↔
      ∃ e ∈ services, 0 < e.2.Dependencies.length ∧
        w = (e.1 ++ "_internal", [("internal", true)]) := by
  unfold networkWrites
  rw [List.mem_flatMap]
  constructor
  · rintro ⟨e, he, hw⟩
    by_cases hlen : e.2.Dependencies.length > 0
    · simp only [hlen, if_true, List.mem_singleton] at hw
      exact ⟨e, he, hlen, hw⟩
    · simp [hlen] at hw
  · rintro ⟨e, he, hlen, hw⟩
    refine ⟨e, he, ?_⟩
    have hlen2 : e.2.Dependencies.length > 0 := hlen
    simp [hlen2, hw]

theorem mem_hiddenWrites (env : GoMap String) (e : String × ServiceConfig)
    (w : String × ComposeService) :
    w ∈ hiddenWrites env e ↔
      ∃ dep ∈ e.2.Dependencies,
        w = (e.1 ++ "_" ++ dep.1, hiddenService env (e.1 ++ "_internal") dep) := by
  unfold hiddenWrites
  rw [List.mem_map]
  constructor
  · rintro ⟨dep, hd, hw⟩
    exact ⟨dep, hd, hw.symm⟩
  · rintro ⟨dep, hd, hw⟩
    exact ⟨dep, hd, hw.symm⟩

theorem mem_serviceWrites (toUpper : String → String) (env : GoMap String)
    (services : GoMap ServiceConfig) (w : String × ComposeService) :
    w ∈ serviceWrites toUpper env services ↔
      ∃ e ∈ services, w ∈ hiddenWrites env e ∨ w = (e.1, ownService toUpper env e) := by
  unfold serviceWrites
  rw [List.mem_flatMap]
  constructor
  · rintro ⟨e, he, hw⟩
    rw [List.mem_append, List.mem_singleton] at hw
    exact ⟨e, he, hw⟩
  · rintro ⟨e, he, hw⟩
    refine ⟨e, he, ?_⟩
    rw [List.mem_append, List.mem_singleton]
    exact hw

/-! ## Networks of the descriptor -/

/-- C6: the networks map of the descriptor always holds the key default (with
an empty entry); it holds N_internal exactly when N is an effective service
with at least one dependency; every such entry is the map with the single
pair internal: true; and the map has no other key. -/
theorem C6_networks (toUpper : String → String) (services : GoMap ServiceConfig)
    (env : GoMap String) :
    (buildCompose toUpper services env).Networks.get "default" = some [] ∧
    (∀ N : String,
      ((buildCompose toUpper services env).Networks.get (N ++ "_internal")).isSome ↔
        ∃ svc, (N, svc) ∈ services ∧ 0 < svc.Dependencies.length) ∧
    (∀ (N : String) (v : GoMap Bool),
      (buildCompose toUpper services env).Networks.get (N ++ "_internal") = some v →
        v = [("internal", true)]) ∧
    (∀ key ∈ (buildCompose toUpper services env).Networks.keys,
      key = "default" ∨
        ∃ N svc, (N, svc) ∈ services ∧ 0 < svc.Dependencies.length ∧
          key = N ++ "_internal") := by
  rw [buildCompose_networks]
  have hinit : ∀ N : String,
      GoMap.get [(("default" : String), ([] : GoMap Bool))] (N ++ "_internal") = none := by
    intro N
    have hne : ¬ ("default" : String) = N ++ "_internal" :=
      fun h => internal_ne_default N h.symm
    simp [GoMap.get, hne]
  refine ⟨?_, ?_, ?_, ?_⟩
  · rcases GoMap.setAll_get_cases (networkWrites services) [("default", [])] "default" with
      ⟨h1, _⟩ | ⟨w, hw, hk, _⟩
    · rw [h1]
      simp [GoMap.get]
    · obtain ⟨e, _, _, hwe⟩ := (mem_networkWrites services w).1 hw
      rw [hwe] at hk
      exact absurd hk (internal_ne_default e.1)
  · intro N
    rcases GoMap.setAll_get_cases (networkWrites services) [("default", [])]
        (N ++ "_internal") with ⟨h1, h2⟩ | ⟨w, hw, hk, hget⟩
    · rw [h1, hinit]
      constructor
      · intro h
        simp at h
      · rintro ⟨svc, hmem, hlen⟩
        exact absurd rfl
          (h2 _ ((mem_networkWrites services _).2 ⟨(N, svc), hmem, hlen, rfl⟩))
    · rw [hget]
      obtain ⟨e, he, hlen, hwe⟩ := (mem_networkWrites services w).1 hw
      rw [hwe] at hk
      have hN : e.1 = N := str_append_right_cancel _ _ _ hk
      constructor
      · intro _
        exact ⟨e.2, by rw [← hN]; exact he, hlen⟩
      · intro _
        rfl
  · intro N v hv
    rcases GoMap.setAll_get_cases (networkWrites services) [("default", [])]
        (N ++ "_internal") with ⟨h1, _⟩ | ⟨w, hw, _, hget⟩
    · rw [h1, hinit] at hv
      cases hv
    · rw [hget] at hv
      obtain ⟨e, _, _, hwe⟩ := (mem_networkWrites services w).1 hw
      rw [hwe] at hv
      exact (Option.some.inj hv).symm
  · intro key hkey
    rcases (GoMap.setAll_keys (networkWrites services) [("default", [])] key).1 hkey with
      h | h
    · left
      simpa [GoMap.keys] using h
    · right
      obtain ⟨w, hw, hk⟩ := List.mem_map.1 h
      obtain ⟨e, he, hlen, hwe⟩ := (mem_networkWrites services w).1 hw
      refine ⟨e.1, e.2, he, hlen, ?_⟩
      rw [← hk, hwe]

/-! ## Services of the descriptor -/

theorem mem_wireWrites (toUpper : String → String) (name : String)
    (deps : GoMap DependencyConfig) (w : String × String) :
    w ∈ wireWrites toUpper name deps ↔
      ∃ d ∈ deps, w = (toUpper d.1 ++ "_HOST", name ++ "_" ++ d.1) ∨
        w = (toUpper d.1 ++ "_PORT", itoa d.2.Expose) := by
  unfold wireWrites
  rw [List.mem_flatMap]
  constructor
  · rintro ⟨d, hd, hw⟩
    simp only [List.mem_cons, List.mem_singleton, List.not_mem_nil, or_false] at hw
    exact ⟨d, hd, hw⟩
  · rintro ⟨d, hd, hw⟩
    refine ⟨d, hd, ?_⟩
    simp only [List.mem_cons, List.mem_singleton, List.not_mem_nil, or_false]
    exact hw

theorem mem_copyWrites (env environment : GoMap String) (w : String × String) :
    w ∈ copyWrites env environment ↔
      ∃ kv ∈ environment, w = (kv.1, envValue env kv.1) := by
  unfold copyWrites
  rw [List.mem_map]
  constructor
  · rintro ⟨kv, hkv, hw⟩
    exact ⟨kv, hkv, hw.symm⟩
  · rintro ⟨kv, hkv, hw⟩
    exact ⟨kv, hkv, hw.symm⟩

/-- The entry stored under the name of a service is the own entry of that
service, when the catalog keys are distinct and no hidden name equals it. -/
theorem buildCompose_get_own (toUpper : String → String) (services : GoMap ServiceConfig)
    (env : GoMap String) (S : String) (svc : ServiceConfig)
    (hnd : services.keys.Nodup) (hS : (S, svc) ∈ services)
    (hnoHidden : ∀ e ∈ services, ∀ d ∈ e.2.Dependencies, e.1 ++ "_" ++ d.1 ≠ S) :
    (buildCompose toUpper services env).Services.get S =
      some (ownService toUpper env (S, svc)) := by
  rw [buildCompose_services]
  rcases GoMap.setAll_get_cases (serviceWrites toUpper env services) [] S with
    ⟨_, h2⟩ | ⟨w, hw, hk, hget⟩
  · exact absurd rfl
      (h2 _ ((mem_serviceWrites toUpper env services _).2 ⟨(S, svc), hS, Or.inr rfl⟩))
  · rw [hget]
    obtain ⟨e, he, hcase⟩ := (mem_serviceWrites toUpper env services w).1 hw
    rcases hcase with hh | ho
    · obtain ⟨d, hd, hwd⟩ := (mem_hiddenWrites env e w).1 hh
      rw [hwd] at hk
      exact absurd hk (hnoHidden e he d hd)
    · rw [ho] at hk
      obtain ⟨n, s⟩ := e
      simp only at hk
      subst hk
      have h1 := GoMap.get_of_mem services n s hnd he
      have h2 := GoMap.get_of_mem services n svc hnd hS
      rw [h1] at h2
      cases h2
      rw [ho]

/-- Counterexample to C5 as stated: with the effective services web (one
dependency under the key db) and web_db, the entry stored under web_db is
the entry of the second service, whose only network is default. -/
theorem C5_network_isolation_counterexample :
    ("web", c5Web) ∈ c5Services ∧ ("db", exampleDb) ∈ c5Web.Dependencies ∧
    ((buildCompose asciiUpper c5Services []).Services.get ("web" ++ "_" ++ "db")).map
      ComposeService.Networks = some ["default"] := by
  decide

/-- C5 (amended): for a service S and a dependency key depKey of S, when the
name S_depKey is not the name of an effective service and is not the hidden
name of a dependency of a service other than S, the descriptor entry under
S_depKey has network membership exactly S_internal, which does not contain
default. -/
theorem C5_network_isolation (toUpper : String → String) (services : GoMap ServiceConfig)
    (env : GoMap String) (S : String) (svc : ServiceConfig) (depKey : String)
    (dep : DependencyConfig)
    (hS : (S, svc) ∈ services) (hdep : (depKey, dep) ∈ svc.Dependencies)
    (hnoSvc : ∀ e ∈ services, e.1 ≠ S ++ "_" ++ depKey)
    (hnoHidden : ∀ e ∈ services, ∀ d ∈ e.2.Dependencies,
      e.1 ++ "_" ++ d.1 = S ++ "_" ++ depKey → e.1 = S) :
    ∃ entry : ComposeService,
      (buildCompose toUpper services env).Services.get (S ++ "_" ++ depKey) = some entry ∧
      entry.Networks = [S ++ "_internal"] ∧ "default" ∉ entry.Networks := by
  rw [buildCompose_services]
  rcases GoMap.setAll_get_cases (serviceWrites toUpper env services) []
      (S ++ "_" ++ depKey) with ⟨_, h2⟩ | ⟨w, hw, hk, hget⟩
  · refine absurd rfl (h2 (S ++ "_" ++ depKey, hiddenService env (S ++ "_internal")
      (depKey, dep)) ?_)
    exact (mem_serviceWrites toUpper env services _).2
      ⟨(S, svc), hS, Or.inl ((mem_hiddenWrites env _ _).2 ⟨(depKey, dep), hdep, rfl⟩)⟩
  · obtain ⟨e, he, hcase⟩ := (mem_serviceWrites toUpper env services w).1 hw
    rcases hcase with hh | ho
    · obtain ⟨d, hd, hwd⟩ := (mem_hiddenWrites env e w).1 hh
      rw [hwd] at hk
      have hname : e.1 = S := hnoHidden e he d hd hk
      refine ⟨w.2, hget, ?_, ?_⟩
      · rw [hwd, hname]
        rfl
      · rw [hwd, hname]
        show "default" ∉ [S ++ "_internal"]
        rw [List.mem_singleton]
        exact fun h => internal_ne_default S h.symm
    · rw [ho] at hk
      exact absurd hk (hnoSvc e he)

/-- Witness of C5: the single service web with the dependency key db. -/
theorem C5_network_isolation_witness :
    ∃ entry : ComposeService,
      (buildCompose asciiUpper [("web", c5Web)] []).Services.get ("web" ++ "_" ++ "db")
        = some entry ∧
      entry.Networks = ["web" ++ "_internal"] ∧ "default" ∉ entry.Networks :=
  C5_network_isolation asciiUpper [("web", c5Web)] [] "web" c5Web "db" exampleDb
    (by decide) (by decide) (by decide) (by decide)

/-- Counterexample to C7 as stated: service foo has the dependency key cache
and declares CACHE_HOST in its own environment; its entry maps CACHE_HOST to
the value of the flat env, not to foo_cache. -/
theorem C7_dependency_wiring_counterexample :
    ("cache", c7Cache) ∈ c7FooDeclaresHost.Dependencies ∧
    asciiUpper "cache" ++ "_HOST" = "CACHE_HOST" ∧
    "foo" ++ "_" ++ "cache" = "foo_cache" ∧
    ((buildCompose asciiUpper [("foo", c7FooDeclaresHost)]
        [("CACHE_HOST", "redis.example.org")]).Services.get "foo").bind
      (fun entry => entry.Environment.get "CACHE_HOST") = some "redis.example.org" := by
  decide

/-- C7 (amended): for a service S stored under a name that no hidden
dependency service takes, and a dependency key depKey of S with dependency D
such that no other dependency key of S has the same upper-case form and the
own environment of S declares neither UPPER(depKey)_HOST nor
UPPER(depKey)_PORT, the descriptor entry of S lists S_depKey in its
depends-on list and its environment maps UPPER(depKey)_HOST to S_depKey and
UPPER(depKey)_PORT to the decimal string of D.expose. -/
theorem C7_dependency_wiring (toUpper : String → String) (services : GoMap ServiceConfig)
    (env : GoMap String) (S : String) (svc : ServiceConfig) (depKey : String)
    (dep : DependencyConfig)
    (hnd : services.keys.Nodup) (hS : (S, svc) ∈ services)
    (hdnd : svc.Dependencies.keys.Nodup) (hdep : (depKey, dep) ∈ svc.Dependencies)
    (hnoHidden : ∀ e ∈ services, ∀ d ∈ e.2.Dependencies, e.1 ++ "_" ++ d.1 ≠ S)
    (hupper : ∀ d ∈ svc.Dependencies, toUpper d.1 = toUpper depKey → d.1 = depKey)
    (hhost : toUpper depKey ++ "_HOST" ∉ svc.Environment.keys)
    (hport : toUpper depKey ++ "_PORT" ∉ svc.Environment.keys) :
    ∃ entry : ComposeService,
      (buildCompose toUpper services env).Services.get S = some entry ∧
      S ++ "_" ++ depKey ∈ entry.DependsOn ∧
      entry.Environment.get (toUpper depKey ++ "_HOST") = some (S ++ "_" ++ depKey) ∧
      entry.Environment.get (toUpper depKey ++ "_PORT") = some (itoa dep.Expose) := by
  refine ⟨ownService toUpper env (S, svc),
    buildCompose_get_own toUpper services env S svc hnd hS hnoHidden, ?_, ?_, ?_⟩
  · exact List.mem_map.2 ⟨(depKey, dep), hdep, rfl⟩
  · show (GoMap.setAll [] (wireWrites toUpper S svc.Dependencies ++
      copyWrites env svc.Environment)).get (toUpper depKey ++ "_HOST") = _
    rcases GoMap.setAll_get_cases (wireWrites toUpper S svc.Dependencies ++
        copyWrites env svc.Environment) [] (toUpper depKey ++ "_HOST") with
      ⟨_, h2⟩ | ⟨w, hw, hk, hget⟩
    · refine absurd rfl (h2 (toUpper depKey ++ "_HOST", S ++ "_" ++ depKey) ?_)
      exact List.mem_append_left _
        ((mem_wireWrites toUpper S _ _).2 ⟨(depKey, dep), hdep, Or.inl rfl⟩)
    · rw [hget]
      rcases List.mem_append.1 hw with hw1 | hw1
      · obtain ⟨d, hd, hwd | hwd⟩ := (mem_wireWrites toUpper S _ w).1 hw1
        · rw [hwd] at hk ⊢
          have hkey : d.1 = depKey := hupper d hd (str_append_right_cancel _ _ _ hk)
          simp only [hkey]
        · rw [hwd] at hk
          exact absurd hk.symm (host_ne_port _ _)
      · obtain ⟨kv, hkv, hwk⟩ := (mem_copyWrites env _ w).1 hw1
        rw [hwk] at hk
        exact absurd (List.mem_map.2 ⟨kv, hkv, hk⟩) hhost
  · show (GoMap.setAll [] (wireWrites toUpper S svc.Dependencies ++
      copyWrites env svc.Environment)).get (toUpper depKey ++ "_PORT") = _
    rcases GoMap.setAll_get_cases (wireWrites toUpper S svc.Dependencies ++
        copyWrites env svc.Environment) [] (toUpper depKey ++ "_PORT") with
      ⟨_, h2⟩ | ⟨w, hw, hk, hget⟩
    · refine absurd rfl (h2 (toUpper depKey ++ "_PORT", itoa dep.Expose) ?_)
      exact List.mem_append_left _
        ((mem_wireWrites toUpper S _ _).2 ⟨(depKey, dep), hdep, Or.inr rfl⟩)
    · rw [hget]
      rcases List.mem_append.1 hw with hw1 | hw1
      · obtain ⟨d, hd, hwd | hwd⟩ := (mem_wireWrites toUpper S _ w).1 hw1
        · rw [hwd] at hk
          exact absurd hk (host_ne_port _ _)
        · rw [hwd] at hk ⊢
          have hkey : d.1 = depKey := hupper d hd (str_append_right_cancel _ _ _ hk)
          obtain ⟨dk, dv⟩ := d
          simp only at hkey
          subst hkey
          have h1 := GoMap.get_of_mem svc.Dependencies dk dv hdnd hd
          have h2 := GoMap.get_of_mem svc.Dependencies dk dep hdnd hdep
          rw [h1] at h2
          cases h2
          rfl
      · obtain ⟨kv, hkv, hwk⟩ := (mem_copyWrites env _ w).1 hw1
        rw [hwk] at hk
        exact absurd (List.mem_map.2 ⟨kv, hkv, hk⟩) hport

/-- Witness of C7: service foo with the dependency key cache and expose 6379
depends on foo_cache and receives CACHE_HOST=foo_cache and CACHE_PORT=6379. -/
theorem C7_dependency_wiring_witness :
    ∃ entry : ComposeService,
      (buildCompose asciiUpper [("foo", c7Foo)] [("MODE", "prod")]).Services.get "foo"
        = some entry ∧
      "foo_cache" ∈ entry.DependsOn ∧
      entry.Environment.get "CACHE_HOST" = some "foo_cache" ∧
      entry.Environment.get "CACHE_PORT" = some "6379" :=
  C7_dependency_wiring asciiUpper [("foo", c7Foo)] [("MODE", "prod")] "foo" c7Foo "cache"
    c7Cache (by decide) (by decide) (by decide) (by decide) (by decide) (by decide)
    (by decide) (by decide)

/-! ## The run of generateEnvVars as one sequence of steps -/

theorem resolveAll_nil (rt : Runtime) (st : EnvState) : resolveAll rt st [] = some st := rfl

theorem resolveAll_cons (rt : Runtime) (st : EnvState) (kv : String × String)
    (vars : List (String × String)) :
    resolveAll rt st (kv :: vars) =
      (resolveVar rt st kv).bind (fun s => resolveAll rt s vars) := by
  simp only [resolveAll, List.foldlM_cons]
  rfl

theorem resolveAll_append (rt : Runtime) (st : EnvState) (a b : List (String × String)) :
    resolveAll rt st (a ++ b) = (resolveAll rt st a).bind (fun s => resolveAll rt s b) := by
  induction a generalizing st with
  | nil => simp [resolveAll_nil]
  | cons kv a ih =>
    rw [List.cons_append, resolveAll_cons, resolveAll_cons]
    cases resolveVar rt st kv with
    | none => rfl
    | some s => simp [ih]

theorem foldlM_dependencies (rt : Runtime) (deps : GoMap DependencyConfig) (st : EnvState) :
    deps.foldlM (fun s dep => resolveEnvironment rt s dep.2.Environment) st =
      resolveAll rt st (deps.flatMap (fun dep => dep.2.Environment)) := by
  induction deps generalizing st with
  | nil => rfl
  | cons d ds ih =>
    rw [List.foldlM_cons, List.flatMap_cons, resolveAll_append]
    show (resolveAll rt st d.2.Environment).bind _ = _
    cases resolveAll rt st d.2.Environment with
    | none => rfl
    | some s => simp [ih]

theorem resolveService_eq (rt : Runtime) (st : EnvState) (entry : String × ServiceConfig) :
    resolveService rt st entry =
      resolveAll rt st (entry.2.Environment ++
        entry.2.Dependencies.flatMap (fun dep => dep.2.Environment)) := by
  unfold resolveService
  rw [resolveAll_append]
  show (match resolveAll rt st entry.2.Environment with
    | none => none
    | some st1 => _) = _
  cases resolveAll rt st entry.2.Environment with
  | none => rfl
  | some s => simp [foldlM_dependencies]

theorem foldlM_services (rt : Runtime) (services : GoMap ServiceConfig) (st : EnvState) :
    services.foldlM (resolveService rt) st = resolveAll rt st (declaredVars services) := by
  induction services generalizing st with
  | nil => rfl
  | cons e rest ih =>
    rw [List.foldlM_cons, declaredVars, List.flatMap_cons, resolveAll_append,
      resolveService_eq]
    cases resolveAll rt st (e.2.Environment ++
        e.2.Dependencies.flatMap (fun dep => dep.2.Environment)) with
    | none => rfl
    | some s =>
      simp only [Option.bind_eq_bind, Option.some_bind]
      rw [ih]
      rfl

theorem generateEnvVarsFrom_eq (existing : GoMap String) (rt : Runtime)
    (services : GoMap ServiceConfig) :
    generateEnvVarsFrom existing rt services =
      resolveAll rt (startState existing) (declaredVars services) :=
  foldlM_services rt services _

theorem resolveAll_split (rt : Runtime) (st st' : EnvState)
    (pre post : List (String × String)) (kv : String × String)
    (h : resolveAll rt st (pre ++ kv :: post) = some st') :
    ∃ st1 st2, resolveAll rt st pre = some st1 ∧ resolveVar rt st1 kv = some st2 ∧
      resolveAll rt st2 post = some st' := by
  rw [resolveAll_append] at h
  cases h1 : resolveAll rt st pre with
  | none => simp [h1] at h
  | some st1 =>
    rw [h1, Option.some_bind, resolveAll_cons] at h
    cases h2 : resolveVar rt st1 kv with
    | none => simp [h2] at h
    | some st2 =>
      rw [h2, Option.some_bind] at h
      exact ⟨st1, st2, rfl, h2, h⟩

/-! ## One step of the run -/

/-- The three ways in which one pair is resolved: a literal, a value that the
store holds, a fresh secret. -/
theorem resolveVar_cases (rt : Runtime) (st st' : EnvState) (kv : String × String)
    (h : resolveVar rt st kv = some st') :
    (hasPrefix kv.2 generatePrefix = false ∧ st' = { st with env := st.env.set kv.1 kv.2 }) ∨
    (hasPrefix kv.2 generatePrefix = true ∧
      ∃ x, st.existing.get kv.1 = some x ∧ st' = { st with env := st.env.set kv.1 x }) ∨
    (hasPrefix kv.2 generatePrefix = true ∧ st.existing.get kv.1 = none ∧
      ∃ s pos, generateRandomString rt st.pos (parseLength kv.2) = some (s, pos) ∧
        st' = { existing := st.existing.set kv.1 s
                env := st.env.set kv.1 s
                pos := pos
                generated := st.generated ++ [(kv.1, parseLength kv.2, s)] }) := by
  unfold resolveVar at h
  cases hv : hasPrefix kv.2 generatePrefix with
  | false =>
    left
    simp only [hv, Bool.false_eq_true, if_false, Option.some.injEq] at h
    exact ⟨rfl, h.symm⟩
  | true =>
    right
    simp only [hv, if_true] at h
    cases hx : st.existing.get kv.1 with
    | some x =>
      left
      simp only [hx, Option.some.injEq] at h
      exact ⟨rfl, x, rfl, h.symm⟩
    | none =>
      right
      simp only [hx] at h
      cases hg : generateRandomString rt st.pos (parseLength kv.2) with
      | none => simp [hg] at h
      | some r =>
        obtain ⟨s, pos⟩ := r
        simp only [hg, Option.some.injEq] at h
        exact ⟨rfl, rfl, s, pos, rfl, h.symm⟩

theorem resolveVar_literal (rt : Runtime) (st : EnvState) (kv : String × String)
    (hv : hasPrefix kv.2 generatePrefix = false) :
    resolveVar rt st kv = some { st with env := st.env.set kv.1 kv.2 } := by
  simp [resolveVar, hv]

theorem resolveVar_stored (rt : Runtime) (st : EnvState) (kv : String × String) (x : String)
    (hv : hasPrefix kv.2 generatePrefix = true) (hx : st.existing.get kv.1 = some x) :
    resolveVar rt st kv = some { st with env := st.env.set kv.1 x } := by
  simp [resolveVar, hv, hx]

/-- A step leaves every other name alone. -/
theorem resolveVar_other (rt : Runtime) (st st' : EnvState) (kv : String × String)
    (k : String) (h : resolveVar rt st kv = some st') (hk : kv.1 ≠ k) :
    st'.env.get k = st.env.get k ∧ st'.existing.get k = st.existing.get k ∧
    st'.generated.filter (fun t => decide (t.1 = k)) =
      st.generated.filter (fun t => decide (t.1 = k)) := by
  rcases resolveVar_cases rt st st' kv h with ⟨_, rfl⟩ | ⟨_, x, _, rfl⟩ | ⟨_, _, s, pos, _, rfl⟩
  · exact ⟨GoMap.get_set_ne _ _ _ _ hk, rfl, rfl⟩
  · exact ⟨GoMap.get_set_ne _ _ _ _ hk, rfl, rfl⟩
  · refine ⟨GoMap.get_set_ne _ _ _ _ hk, GoMap.get_set_ne _ _ _ _ hk, ?_⟩
    simp [List.filter_append, List.filter_cons, hk]

/-- A step never changes a value that the store holds and generates nothing
for its name. -/
theorem resolveVar_keeps (rt : Runtime) (st st' : EnvState) (kv : String × String)
    (k x : String) (h : resolveVar rt st kv = some st') (hx : st.existing.get k = some x) :
    st'.existing.get k = some x ∧
    st'.generated.filter (fun t => decide (t.1 = k)) =
      st.generated.filter (fun t => decide (t.1 = k)) := by
  by_cases hk : kv.1 = k
  · rcases resolveVar_cases rt st st' kv h with ⟨_, rfl⟩ | ⟨_, y, _, rfl⟩ | ⟨_, hnone, _⟩
    · exact ⟨hx, rfl⟩
    · exact ⟨hx, rfl⟩
    · rw [hk, hx] at hnone
      cases hnone
  · obtain ⟨_, h2, h3⟩ := resolveVar_other rt st st' kv k h hk
    exact ⟨h2.trans hx, h3⟩

/-! ## Whole runs -/

/-- A run leaves alone every name that it does not visit. -/
theorem resolveAll_other (rt : Runtime) (vars : List (String × String)) (st st' : EnvState)
    (k : String) (h : resolveAll rt st vars = some st') (hk : ∀ kv ∈ vars, kv.1 ≠ k) :
    st'.env.get k = st.env.get k ∧ st'.existing.get k = st.existing.get k ∧
    st'.generated.filter (fun t => decide (t.1 = k)) =
      st.generated.filter (fun t => decide (t.1 = k)) := by
  induction vars generalizing st with
  | nil =>
    rw [resolveAll_nil] at h
    cases h
    exact ⟨rfl, rfl, rfl⟩
  | cons kv vars ih =>
    rw [resolveAll_cons] at h
    cases h1 : resolveVar rt st kv with
    | none => simp [h1] at h
    | some s =>
      rw [h1, Option.some_bind] at h
      obtain ⟨a1, a2, a3⟩ := resolveVar_other rt st s kv k h1 (hk kv (List.mem_cons_self _ _))
      obtain ⟨b1, b2, b3⟩ := ih s h (fun x hx => hk x (List.mem_cons_of_mem _ hx))
      exact ⟨b1.trans a1, b2.trans a2, b3.trans a3⟩

/-- A run never changes a value that the store holds and generates nothing
for its name. -/
theorem resolveAll_keeps (rt : Runtime) (vars : List (String × String)) (st st' : EnvState)
    (k x : String) (h : resolveAll rt st vars = some st') (hx : st.existing.get k = some x) :
    st'.existing.get k = some x ∧
    st'.generated.filter (fun t => decide (t.1 = k)) =
      st.generated.filter (fun t => decide (t.1 = k)) := by
  induction vars generalizing st with
  | nil =>
    rw [resolveAll_nil] at h
    cases h
    exact ⟨hx, rfl⟩
  | cons kv vars ih =>
    rw [resolveAll_cons] at h
    cases h1 : resolveVar rt st kv with
    | none => simp [h1] at h
    | some s =>
      rw [h1, Option.some_bind] at h
      obtain ⟨a1, a2⟩ := resolveVar_keeps rt st s kv k x h1 hx
      obtain ⟨b1, b2⟩ := ih s h a1
      exact ⟨b1, b2.trans a2⟩

/-- Every visited name has a last visit. -/
theorem exists_last_visit (vars : List (String × String)) (k : String)
    (hk : k ∈ vars.map Prod.fst) :
    ∃ pre v post, vars = pre ++ (k, v) :: post ∧ ∀ kv ∈ post, kv.1 ≠ k := by
  induction vars with
  | nil => simp at hk
  | cons a rest ih =>
    by_cases hrest : k ∈ rest.map Prod.fst
    · obtain ⟨pre, v, post, heq, hpost⟩ := ih hrest
      exact ⟨a :: pre, v, post, by rw [heq]; rfl, hpost⟩
    · have ha : a.1 = k := by
        simp only [List.map_cons, List.mem_cons] at hk
        rcases hk with h | h
        · exact h.symm
        · exact absurd h hrest
      refine ⟨[], a.2, rest, ?_, ?_⟩
      · rw [← ha]
        rfl
      · intro kv hkv hkk
        exact hrest (List.mem_map.2 ⟨kv, hkv, hkk⟩)

/-- Every visited name has a first visit. -/
theorem exists_first_visit (vars : List (String × String)) (k : String)
    (hk : k ∈ vars.map Prod.fst) :
    ∃ pre v post, vars = pre ++ (k, v) :: post ∧ ∀ kv ∈ pre, kv.1 ≠ k := by
  induction vars with
  | nil => simp at hk
  | cons a rest ih =>
    by_cases ha : a.1 = k
    · refine ⟨[], a.2, rest, ?_, ?_⟩
      · rw [← ha]
        rfl
      · intro kv hkv
        simp at hkv
    · have hrest : k ∈ rest.map Prod.fst := by
        simp only [List.map_cons, List.mem_cons] at hk
        rcases hk with h | h
        · exact absurd h.symm ha
        · exact h
      obtain ⟨pre, v, post, heq, hpre⟩ := ih hrest
      refine ⟨a :: pre, v, post, by rw [heq]; rfl, ?_⟩
      intro kv hkv
      rcases List.mem_cons.1 hkv with h | h
      · exact h ▸ ha
      · exact hpre kv h

/-- The value of a name after a run is decided by its last visit: the
literal of that visit, or what the store holds for the name at the end. -/
theorem resolveAll_env_last (rt : Runtime) (st st' : EnvState)
    (pre post : List (String × String)) (k v : String)
    (h : resolveAll rt st (pre ++ (k, v) :: post) = some st')
    (hpost : ∀ kv ∈ post, kv.1 ≠ k) :
    (hasPrefix v generatePrefix = false → st'.env.get k = some v) ∧
    (hasPrefix v generatePrefix = true →
      ∃ x, st'.existing.get k = some x ∧ st'.env.get k = some x) := by
  obtain ⟨st1, st2, _, h2, h3⟩ := resolveAll_split rt st st' pre post (k, v) h
  obtain ⟨e1, e2, _⟩ := resolveAll_other rt post st2 st' k h3 hpost
  rcases resolveVar_cases rt st1 st2 (k, v) h2 with
    ⟨hv, rfl⟩ | ⟨hv, x, hx, rfl⟩ | ⟨hv, _, s, pos, _, rfl⟩
  · constructor
    · intro _
      rw [e1]
      exact GoMap.get_set_self _ _ _
    · intro hv2
      simp only at hv
      rw [hv] at hv2
      cases hv2
  · constructor
    · intro hv2
      simp only at hv
      rw [hv] at hv2
      cases hv2
    · intro _
      exact ⟨x, e2.trans hx, e1.trans (GoMap.get_set_self _ _ _)⟩
  · constructor
    · intro hv2
      simp only at hv
      rw [hv] at hv2
      cases hv2
    · intro _
      exact ⟨s, e2.trans (GoMap.get_set_self _ _ _), e1.trans (GoMap.get_set_self _ _ _)⟩

/-- After a visit of a name with a placeholder the store holds the name. -/
theorem resolveAll_stored_after (rt : Runtime) (vars : List (String × String))
    (st st' : EnvState) (k v : String) (h : resolveAll rt st vars = some st')
    (hmem : (k, v) ∈ vars) (hv : hasPrefix v generatePrefix = true) :
    ∃ x, st'.existing.get k = some x := by
  obtain ⟨a, b, hab⟩ := List.append_of_mem hmem
  rw [hab] at h
  obtain ⟨st1, st2, _, h2, h3⟩ := resolveAll_split rt st st' a b (k, v) h
  have hst2 : ∃ x, st2.existing.get k = some x := by
    rcases resolveVar_cases rt st1 st2 (k, v) h2 with
      ⟨hlit, _⟩ | ⟨_, x, hx, rfl⟩ | ⟨_, _, s, pos, _, rfl⟩
    · simp only at hlit
      rw [hlit] at hv
      cases hv
    · exact ⟨x, hx⟩
    · exact ⟨s, GoMap.get_set_self _ _ _⟩
  obtain ⟨x, hx⟩ := hst2
  exact ⟨x, (resolveAll_keeps rt b st2 st' k x h3 hx).1⟩

/-! ## Persisted values and single generation -/

/-- C4: a name that has a value in the persisted store and is declared in the
set only with placeholder values is returned with the persisted value
unchanged, whatever length its placeholders request; the store keeps the
value and no call of generateRandomString is made for the name. -/
theorem C4_persisted_value_wins (file : Option String) (rt : Runtime)
    (services : GoMap ServiceConfig) (name persisted : String)
    (hstore : (loadDotEnv file).get name = some persisted)
    (hdecl : name ∈ (declaredVars services).map Prod.fst)
    (honly : ∀ kv ∈ declaredVars services, kv.1 = name →
      hasPrefix kv.2 generatePrefix = true) :
    ∀ res : EnvState, generateEnvVarsRun file rt services = some res →
      generateEnvVars file rt services = some res.env ∧
      res.env.get name = some persisted ∧
      res.existing.get name = some persisted ∧
      ∀ t ∈ res.generated, t.1 ≠ name := by
  · intro res hrun
    have henv : generateEnvVars file rt services = some res.env := by
      simp [generateEnvVars, hrun]
    unfold generateEnvVarsRun at hrun
    rw [generateEnvVarsFrom_eq] at hrun
    obtain ⟨k1, k2⟩ := resolveAll_keeps rt _ _ res name persisted hrun hstore
    obtain ⟨pre, v, post, heq, hpost⟩ := exists_last_visit _ name hdecl
    have hv : hasPrefix v generatePrefix = true :=
      honly (name, v) (by rw [heq]; simp) rfl
    rw [heq] at hrun
    obtain ⟨x, hx1, hx2⟩ := (resolveAll_env_last rt _ res pre post name v hrun hpost).2 hv
    rw [k1] at hx1
    cases hx1
    refine ⟨henv, hx2, k1, ?_⟩
    intro t ht hname
    have hmem : t ∈ res.generated.filter (fun t => decide (t.1 = name)) :=
      List.mem_filter.2 ⟨ht, by simp [hname]⟩
    rw [k2] at hmem
    simp [startState] at hmem

/-- Witness of C4: the env file holds DB_PASS=hunter2 (7 characters) and the
set declares DB_PASS with a placeholder of length 16. -/
theorem C4_persisted_value_wins_witness :
    generateEnvVars (some "DB_PASS=hunter2\n") exampleRt [("api", c4Api)] =
      some [("DB_PASS", "hunter2")] ∧
    ∀ t ∈ ([] : List (String × Int × String)), t.1 ≠ "DB_PASS" := by
  have h := C4_persisted_value_wins (some "DB_PASS=hunter2\n") exampleRt [("api", c4Api)]
    "DB_PASS" "hunter2" (by decide) (by decide) (by decide)
    { existing := [("DB_PASS", "hunter2")], env := [("DB_PASS", "hunter2")], pos := 0,
      generated := [] } (by decide)
  exact ⟨h.1, h.2.2.2⟩

/-- Counterexample to C9 as stated: the service declares DB_PASS with the
literal changeme and its dependency declares DB_PASS with a placeholder.
After the own environment env holds the literal; the later visit with the
placeholder generates a secret and replaces the literal with it. -/
theorem C9_first_resolution_counterexample :
    (resolveEnvironment exampleRt (startState (loadDotEnv none)) c9Api.Environment).map
      (fun st => st.env.get "DB_PASS") = some (some "changeme") ∧
    (generateEnvVarsRun none exampleRt [("api", c9Api)]).map
      (fun st => (st.env.get "DB_PASS", st.generated)) =
        some (some "052a4f74", [("DB_PASS", 8, "052a4f74")]) := by
  decide

/-- C9 (amended): once a name has been resolved from a persisted value or
from a fresh secret (the persisted store holds it, or an earlier visit of the
run had a placeholder for it), a later visit of the name with a placeholder
generates no secret: it leaves the store, the entropy position and the record
of generated secrets as they are and assigns to env the value that the store
already holds for the name. -/
theorem C9_no_second_generation (file : Option String) (rt : Runtime)
    (services : GoMap ServiceConfig) (name v : String) (pre post : List (String × String))
    (res : EnvState)
    (hrun : generateEnvVarsRun file rt services = some res)
    (hvisit : declaredVars services = pre ++ (name, v) :: post)
    (hv : hasPrefix v generatePrefix = true)
    (hresolved : (∃ x, (loadDotEnv file).get name = some x) ∨
      ∃ v0, (name, v0) ∈ pre ∧ hasPrefix v0 generatePrefix = true) :
    ∃ (st1 : EnvState) (x : String),
      resolveAll rt (startState (loadDotEnv file)) pre = some st1 ∧
      st1.existing.get name = some x ∧
      resolveVar rt st1 (name, v) = some { st1 with env := st1.env.set name x } := by
  unfold generateEnvVarsRun at hrun
  rw [generateEnvVarsFrom_eq, hvisit] at hrun
  obtain ⟨st1, st2, h1, _, _⟩ := resolveAll_split rt _ res pre post (name, v) hrun
  have hx : ∃ x, st1.existing.get name = some x := by
    rcases hresolved with ⟨x, hx⟩ | ⟨v0, hmem, hv0⟩
    · exact ⟨x, (resolveAll_keeps rt pre _ st1 name x h1 hx).1⟩
    · exact resolveAll_stored_after rt pre _ st1 name v0 h1 hmem hv0
  obtain ⟨x, hx⟩ := hx
  exact ⟨st1, x, h1, hx, resolveVar_stored rt st1 (name, v) x hv hx⟩

/-- Witness of C9: DB_PASS is declared with a placeholder by the service and
again by its dependency; the second visit assigns the secret of the first. -/
theorem C9_no_second_generation_witness :
    ∃ (st1 : EnvState) (x : String),
      resolveAll exampleRt (startState (loadDotEnv none)) [("DB_PASS", placeholder "8")]
        = some st1 ∧
      st1.existing.get "DB_PASS" = some x ∧
      resolveVar exampleRt st1 ("DB_PASS", placeholder "16") =
        some { st1 with env := st1.env.set "DB_PASS" x } :=
  C9_no_second_generation none exampleRt [("api", c10Api)] "DB_PASS" (placeholder "16")
    [("DB_PASS", placeholder "8")] []
    { existing := [("DB_PASS", "052a4f74")], env := [("DB_PASS", "052a4f74")], pos := 8,
      generated := [("DB_PASS", 8, "052a4f74")] }
    (by decide) (by decide) (by decide)
    (Or.inr ⟨placeholder "8", by decide, by decide⟩)

/-- C10: a name that the persisted store does not hold and that the set
declares only with placeholders (in one place or in several, with any
lengths) gets exactly one call of generateRandomString in a run, with the
length parsed from the first placeholder visited; the secret has that length,
it is the value returned for the name, and every visit of the name leaves env
with that same value. -/
theorem C10_single_generation (file : Option String) (rt : Runtime)
    (services : GoMap ServiceConfig) (name v0 : String) (pre post : List (String × String))
    (hstore : (loadDotEnv file).get name = none)
    (hfirst : declaredVars services = pre ++ (name, v0) :: post)
    (hpre : ∀ kv ∈ pre, kv.1 ≠ name)
    (honly : ∀ kv ∈ declaredVars services, kv.1 = name →
      hasPrefix kv.2 generatePrefix = true) :
    ∀ res : EnvState, generateEnvVarsRun file rt services = some res →
      ∃ secret : String,
        res.generated.filter (fun t => decide (t.1 = name)) =
          [(name, parseLength v0, secret)] ∧
        (secret.length : Int) = parseLength v0 ∧
        res.env.get name = some secret ∧
        ∀ (pre2 : List (String × String)) (v : String) (post2 : List (String × String)),
          declaredVars services = pre2 ++ (name, v) :: post2 →
          ∃ st1 st2, resolveAll rt (startState (loadDotEnv file)) pre2 = some st1 ∧
            resolveVar rt st1 (name, v) = some st2 ∧ st2.env.get name = some secret := by
  · intro res hrun
    unfold generateEnvVarsRun at hrun
    rw [generateEnvVarsFrom_eq] at hrun
    have hrun1 := hrun
    rw [hfirst] at hrun1
    obtain ⟨st1, st2, h1, h2, h3⟩ := resolveAll_split rt _ res pre post (name, v0) hrun1
    obtain ⟨_, a2, a3⟩ := resolveAll_other rt pre _ st1 name h1 hpre
    have hst1 : st1.existing.get name = none := a2.trans hstore
    have hgen1 : st1.generated.filter (fun t => decide (t.1 = name)) = [] := by
      rw [a3]
      rfl
    have hv0 : hasPrefix v0 generatePrefix = true :=
      honly (name, v0) (by rw [hfirst]; simp) rfl
    rcases resolveVar_cases rt st1 st2 (name, v0) h2 with
      ⟨hlit, _⟩ | ⟨_, x, hx, _⟩ | ⟨_, _, s, pos, hg, hst2⟩
    · simp only at hlit
      rw [hlit] at hv0
      cases hv0
    · simp only at hx
      rw [hst1] at hx
      cases hx
    · have hs2 : st2.existing.get name = some s := by
        rw [hst2]
        exact GoMap.get_set_self _ _ _
      obtain ⟨b1, b2⟩ := resolveAll_keeps rt post st2 res name s h3 hs2
      have hfinal : ∀ x, res.existing.get name = some x → x = s := by
        intro x hx
        rw [b1] at hx
        exact (Option.some.inj hx).symm
      refine ⟨s, ?_, (generateRandomString_some rt _ _ s pos hg).2.1, ?_, ?_⟩
      · rw [b2, hst2]
        simp [List.filter_append, hgen1]
      · obtain ⟨p, v, q, heq, hq⟩ := exists_last_visit (declaredVars services) name
          (by rw [hfirst]; simp)
        have hv : hasPrefix v generatePrefix = true :=
          honly (name, v) (by rw [heq]; simp) rfl
        rw [heq] at hrun
        obtain ⟨x, hx1, hx2⟩ := (resolveAll_env_last rt _ res p q name v hrun hq).2 hv
        rw [hx2, hfinal x hx1]
      · intro pre2 v post2 heq
        have hv : hasPrefix v generatePrefix = true :=
          honly (name, v) (by rw [heq]; simp) rfl
        rw [heq] at hrun
        obtain ⟨t1, t2, g1, g2, g3⟩ := resolveAll_split rt _ res pre2 post2 (name, v) hrun
        refine ⟨t1, t2, g1, g2, ?_⟩
        rcases resolveVar_cases rt t1 t2 (name, v) g2 with
          ⟨hlit, _⟩ | ⟨_, x, hx, ht2⟩ | ⟨_, _, s2, pos2, _, ht2⟩
        · simp only at hlit
          rw [hlit] at hv
          cases hv
        · have hx2 : t2.existing.get name = some x := by
            rw [ht2]
            exact hx
          have := hfinal x (resolveAll_keeps rt post2 t2 res name x g3 hx2).1
          rw [ht2, ← this]
          exact GoMap.get_set_self _ _ _
        · have hx2 : t2.existing.get name = some s2 := by
            rw [ht2]
            exact GoMap.get_set_self _ _ _
          have := hfinal s2 (resolveAll_keeps rt post2 t2 res name s2 g3 hx2).1
          rw [ht2, ← this]
          exact GoMap.get_set_self _ _ _

/-- Witness of C10: DB_PASS is declared with a placeholder of length 8 by the
service and of length 16 by its dependency; one secret of 8 characters is
generated and returned. -/
theorem C10_single_generation_witness :
    ∃ (res : EnvState) (secret : String),
      generateEnvVarsRun none exampleRt [("api", c10Api)] = some res ∧
      res.generated.filter (fun t => decide (t.1 = "DB_PASS")) =
        [("DB_PASS", parseLength (placeholder "8"), secret)] ∧
      (secret.length : Int) = parseLength (placeholder "8") ∧
      res.env.get "DB_PASS" = some secret := by
  have hrun : generateEnvVarsRun none exampleRt [("api", c10Api)] =
      some { existing := [("DB_PASS", "052a4f74")], env := [("DB_PASS", "052a4f74")], pos := 8,
             generated := [("DB_PASS", 8, "052a4f74")] } := by decide
  obtain ⟨secret, h1, h2, h3, _⟩ :=
    C10_single_generation none exampleRt [("api", c10Api)] "DB_PASS" (placeholder "8")
      [] [("DB_PASS", placeholder "16")] (by decide) (by decide) (by decide) (by decide)
      _ hrun
  exact ⟨_, secret, hrun, h1, h2, h3⟩

/-! ## The env file -/

theorem splitOnChar_append_sep (c : Char) (line rest : List Char) (h : c ∉ line) :
    splitOnChar c (line ++ c :: rest) = line :: splitOnChar c rest := by
  induction line with
  | nil => simp [splitOnChar]
  | cons x xs ih =>
    have hx : ¬ x = c := fun e => h (e ▸ List.mem_cons_self _ _)
    have hxs : c ∉ xs := fun e => h (List.mem_cons_of_mem _ e)
    rw [List.cons_append]
    simp only [splitOnChar, hx, if_false, ih hxs]

theorem splitOnChar_not_mem (c : Char) (l : List Char) : ∀ p ∈ splitOnChar c l, c ∉ p := by
  induction l with
  | nil =>
    intro p hp
    simp only [splitOnChar, List.mem_singleton] at hp
    subst hp
    simp
  | cons x xs ih =>
    intro p hp
    by_cases hx : x = c
    · simp only [splitOnChar, hx, if_true, List.mem_cons] at hp
      rcases hp with h | h
      · subst h
        simp
      · exact ih p h
    · simp only [splitOnChar, hx, if_false] at hp
      cases hsp : splitOnChar c xs with
      | nil =>
        simp only [hsp, List.mem_singleton] at hp
        subst hp
        simp only [List.mem_singleton]
        exact fun e => hx e.symm
      | cons piece rest =>
        simp only [hsp, List.mem_cons] at hp
        rcases hp with h | h
        · subst h
          have hpiece : c ∉ piece := ih piece (by rw [hsp]; exact List.mem_cons_self _ _)
          simp only [List.mem_cons, not_or]
          exact ⟨fun e => hx e.symm, hpiece⟩
        · exact ih p (by rw [hsp]; exact List.mem_cons_of_mem _ h)

theorem cutAt_append (c : Char) (a b : List Char) (h : c ∉ a) :
    cutAt c (a ++ c :: b) = some (a, b) := by
  induction a with
  | nil => simp [cutAt]
  | cons x xs ih =>
    have hx : ¬ x = c := fun e => h (e ▸ List.mem_cons_self _ _)
    have hxs : c ∉ xs := fun e => h (List.mem_cons_of_mem _ e)
    rw [List.cons_append]
    simp only [cutAt, hx, if_false, ih hxs]

theorem cutAt_some (c : Char) (l a b : List Char) (h : cutAt c l = some (a, b)) :
    l = a ++ c :: b := by
  induction l generalizing a with
  | nil => simp [cutAt] at h
  | cons x xs ih =>
    by_cases hx : x = c
    · simp only [cutAt, hx, if_true, Option.some.injEq, Prod.mk.injEq] at h
      rw [hx, ← h.1, ← h.2]
      rfl
    · simp only [cutAt, hx, if_false] at h
      cases hc : cutAt c xs with
      | none => simp [hc] at h
      | some r =>
        obtain ⟨a2, b2⟩ := r
        simp only [hc, Option.some.injEq, Prod.mk.injEq] at h
        obtain ⟨h1, h2⟩ := h
        subst h1 h2
        have hxs := ih a2 hc
        rw [hxs]
        rfl

theorem splitN2_pair (k v : String) (hk : '=' ∉ k.data) :
    splitN2 (String.mk (k.data ++ '=' :: v.data)) = [k, v] := by
  unfold splitN2
  simp only [cutAt_append '=' k.data v.data hk]

theorem splitN2_empty : splitN2 (String.mk []) = [String.mk []] := by
  decide

theorem loadDotEnv_eq (data : String) :
    loadDotEnv (some data) = (splitLines data).foldl loadLine [] := rfl

theorem loadLine_pair (acc : GoMap String) (k v : String) (hk : '=' ∉ k.data) :
    loadLine acc (String.mk (k.data ++ '=' :: v.data)) = acc.set k v := by
  unfold loadLine
  rw [splitN2_pair k v hk]

theorem loadLine_empty (acc : GoMap String) : loadLine acc (String.mk []) = acc := by
  unfold loadLine
  rw [splitN2_empty]

/-- The characters of the text that writeEnvFile produces. -/
theorem writeEnvFile_data (env : GoMap String) :
    (writeEnvFile env).data =
      env.flatMap (fun kv => (kv.1.data ++ '=' :: kv.2.data) ++ '\n' :: []) := by
  have key : ∀ (l : GoMap String) (b : String),
      (l.foldl (fun b kv => b ++ (kv.1 ++ "=" ++ kv.2 ++ "\n")) b).data =
        b.data ++ l.flatMap (fun kv => (kv.1.data ++ '=' :: kv.2.data) ++ '\n' :: []) := by
    intro l
    induction l with
    | nil => intro b; simp
    | cons kv l ih =>
      intro b
      rw [List.foldl_cons, ih, List.flatMap_cons]
      simp only [String.data_append, List.append_assoc]
      rfl
  rw [writeEnvFile, key]
  rfl

theorem splitOnChar_lines (env : GoMap String)
    (hclean : ∀ kv ∈ env, '\n' ∉ kv.1.data ∧ '\n' ∉ kv.2.data) :
    splitOnChar '\n'
        (env.flatMap (fun kv => (kv.1.data ++ '=' :: kv.2.data) ++ '\n' :: [])) =
      env.map (fun kv => kv.1.data ++ '=' :: kv.2.data) ++ [[]] := by
  induction env with
  | nil => rfl
  | cons kv env ih =>
    obtain ⟨h1, h2⟩ := hclean kv (List.mem_cons_self _ _)
    have hline : '\n' ∉ kv.1.data ++ '=' :: kv.2.data := by
      simp only [List.mem_append, List.mem_cons, not_or]
      exact ⟨h1, by decide, h2⟩
    rw [List.flatMap_cons, List.append_assoc, List.singleton_append,
      splitOnChar_append_sep _ _ _ hline, ih (fun x hx => hclean x (List.mem_cons_of_mem _ hx))]
    rfl

/-- Loading the text written for a map whose names hold neither `=` nor a
newline and whose values hold no newline replays the assignments of its
entries. -/
theorem loadDotEnv_writeEnvFile (env : GoMap String)
    (hclean : ∀ kv ∈ env, '=' ∉ kv.1.data ∧ '\n' ∉ kv.1.data ∧ '\n' ∉ kv.2.data) :
    loadDotEnv (some (writeEnvFile env)) = GoMap.setAll [] env := by
  have key : ∀ (l : GoMap String) (acc : GoMap String),
      (∀ kv ∈ l, '=' ∉ kv.1.data) →
      (l.map (fun kv => String.mk (kv.1.data ++ '=' :: kv.2.data))).foldl loadLine acc =
        GoMap.setAll acc l := by
    intro l
    induction l with
    | nil => intro acc _; rfl
    | cons kv l ih =>
      intro acc h
      rw [List.map_cons, List.foldl_cons, GoMap.setAll_cons,
        loadLine_pair acc kv.1 kv.2 (h kv (List.mem_cons_self _ _))]
      exact ih _ (fun x hx => h x (List.mem_cons_of_mem _ hx))
  rw [loadDotEnv_eq, splitLines, writeEnvFile_data,
    splitOnChar_lines env (fun kv hkv => ⟨(hclean kv hkv).2.1, (hclean kv hkv).2.2⟩),
    List.map_append, List.foldl_append, List.map_map]
  have hmap : (String.mk ∘ fun kv : String × String => kv.1.data ++ '=' :: kv.2.data) =
      fun kv => String.mk (kv.1.data ++ '=' :: kv.2.data) := rfl
  rw [hmap, key env [] (fun kv hkv => (hclean kv hkv).1)]
  simp only [List.map_cons, List.map_nil, List.foldl_cons, List.foldl_nil, loadLine_empty]

theorem GoMap.setAll_get_nodup {V : Type} (ws : List (String × V)) (k : String)
    (hnd : (GoMap.keys ws).Nodup) : (GoMap.setAll [] ws).get k = GoMap.get ws k := by
  rcases GoMap.setAll_get_cases ws [] k with ⟨h1, h2⟩ | ⟨w, hw, hk, hget⟩
  · rw [h1]
    have hnone : GoMap.get ws k = none := by
      rw [GoMap.get_eq_none_iff]
      intro hmem
      obtain ⟨w, hw, hwk⟩ := List.mem_map.1 hmem
      exact h2 w hw hwk
    rw [hnone]
    rfl
  · rw [hget]
    obtain ⟨wk, wv⟩ := w
    simp only at hk
    subst hk
    exact (GoMap.get_of_mem ws wk wv hnd hw).symm

theorem GoMap.get_perm {V : Type} (a b : GoMap V) (k : String) (hp : List.Perm a b)
    (hnd : (GoMap.keys b).Nodup) : GoMap.get a k = GoMap.get b k := by
  have hnda : (GoMap.keys a).Nodup := ((hp.map Prod.fst).nodup_iff).2 hnd
  cases hb : GoMap.get b k with
  | none =>
    rw [GoMap.get_eq_none_iff] at hb ⊢
    intro hmem
    exact hb (((hp.map Prod.fst).mem_iff).1 hmem)
  | some v =>
    exact GoMap.get_of_mem a k v hnda ((hp.mem_iff).2 (GoMap.mem_of_get b k v hb))

/-- No value of a loaded env file holds a newline. -/
theorem loadDotEnv_no_newline (file : Option String) (k x : String)
    (h : (loadDotEnv file).get k = some x) : '\n' ∉ x.data := by
  cases file with
  | none => simp [loadDotEnv, GoMap.get] at h
  | some data =>
    have key : ∀ (lines : List String) (acc : GoMap String),
        (∀ line ∈ lines, '\n' ∉ line.data) →
        (∀ k x, acc.get k = some x → '\n' ∉ x.data) →
        ∀ k x, (lines.foldl loadLine acc).get k = some x → '\n' ∉ x.data := by
      intro lines
      induction lines with
      | nil => intro acc _ hacc k x hx; exact hacc k x hx
      | cons line lines ih =>
        intro acc hl hacc
        rw [List.foldl_cons]
        apply ih _ (fun l hl2 => hl l (List.mem_cons_of_mem _ hl2))
        have hline := hl line (List.mem_cons_self _ _)
        unfold loadLine splitN2
        cases hc : cutAt '=' line.data with
        | none => exact hacc
        | some r =>
          obtain ⟨a, b⟩ := r
          intro k2 x2 hx2
          simp only at hx2
          rw [GoMap.get_set] at hx2
          by_cases hk : String.mk a = k2
          · simp only [hk, if_true, Option.some.injEq] at hx2
            rw [← hx2]
            have hsplit := cutAt_some '=' line.data a b hc
            intro hmem
            apply hline
            rw [hsplit]
            exact List.mem_append_right _ (List.mem_cons_of_mem _ hmem)
          · simp only [hk, if_false] at hx2
            exact hacc k2 x2 hx2
    rw [loadDotEnv_eq] at h
    refine key (splitLines data) [] ?_ ?_ k x h
    · intro line hline
      obtain ⟨p, hp, hpl⟩ := List.mem_map.1 hline
      rw [← hpl]
      exact splitOnChar_not_mem '\n' data.data p hp
    · intro k2 x2 hx2
      simp [GoMap.get] at hx2

/-! ## Invariants of a run -/

theorem noNewlineValues_set (m : GoMap String) (k v : String) (hm : noNewlineValues m)
    (hv : '\n' ∉ v.data) : noNewlineValues (m.set k v) := by
  intro k2 x hx
  rw [GoMap.get_set] at hx
  by_cases hk : k = k2
  · simp only [hk, if_true, Option.some.injEq] at hx
    exact hx ▸ hv
  · simp only [hk, if_false] at hx
    exact hm k2 x hx

theorem hex_no_newline (s : String) (h : ∀ c ∈ s.data, c ∈ "0123456789abcdef".data) :
    '\n' ∉ s.data := by
  intro hmem
  have := h _ hmem
  revert this
  decide

theorem resolveVar_invariant (rt : Runtime) (st st' : EnvState) (kv : String × String)
    (h : resolveVar rt st kv = some st')
    (hlit : hasPrefix kv.2 generatePrefix = false → '\n' ∉ kv.2.data)
    (hnd : st.env.keys.Nodup) (henv : noNewlineValues st.env)
    (hex : noNewlineValues st.existing) :
    st'.env.keys.Nodup ∧ noNewlineValues st'.env ∧ noNewlineValues st'.existing := by
  rcases resolveVar_cases rt st st' kv h with
    ⟨hv, rfl⟩ | ⟨_, x, hx, rfl⟩ | ⟨_, _, s, pos, hg, rfl⟩
  · exact ⟨GoMap.nodup_set _ _ _ hnd, noNewlineValues_set _ _ _ henv (hlit hv), hex⟩
  · exact ⟨GoMap.nodup_set _ _ _ hnd, noNewlineValues_set _ _ _ henv (hex _ x hx), hex⟩
  · have hs : '\n' ∉ s.data :=
      hex_no_newline s (generateRandomString_some rt _ _ s pos hg).2.2
    exact ⟨GoMap.nodup_set _ _ _ hnd, noNewlineValues_set _ _ _ henv hs,
      noNewlineValues_set _ _ _ hex hs⟩

theorem resolveAll_invariant (rt : Runtime) (vars : List (String × String))
    (st st' : EnvState) (h : resolveAll rt st vars = some st')
    (hlit : ∀ kv ∈ vars, hasPrefix kv.2 generatePrefix = false → '\n' ∉ kv.2.data)
    (hnd : st.env.keys.Nodup) (henv : noNewlineValues st.env)
    (hex : noNewlineValues st.existing) :
    st'.env.keys.Nodup ∧ noNewlineValues st'.env ∧ noNewlineValues st'.existing := by
  induction vars generalizing st with
  | nil =>
    rw [resolveAll_nil] at h
    cases h
    exact ⟨hnd, henv, hex⟩
  | cons kv vars ih =>
    rw [resolveAll_cons] at h
    cases h1 : resolveVar rt st kv with
    | none => simp [h1] at h
    | some s =>
      rw [h1, Option.some_bind] at h
      obtain ⟨a1, a2, a3⟩ := resolveVar_invariant rt st s kv h1
        (hlit kv (List.mem_cons_self _ _)) hnd henv hex
      exact ih s h (fun x hx => hlit x (List.mem_cons_of_mem _ hx)) a1 a2 a3

/-- Every name of env after a run was in env before or has been visited. -/
theorem resolveAll_env_keys (rt : Runtime) (vars : List (String × String))
    (st st' : EnvState) (k : String) (h : resolveAll rt st vars = some st')
    (hk : k ∈ st'.env.keys) : k ∈ st.env.keys ∨ k ∈ vars.map Prod.fst := by
  by_cases hv : k ∈ vars.map Prod.fst
  · exact Or.inr hv
  · left
    have hother : ∀ kv ∈ vars, kv.1 ≠ k := fun kv hkv e => hv (List.mem_map.2 ⟨kv, hkv, e⟩)
    obtain ⟨h1, _, _⟩ := resolveAll_other rt vars st st' k h hother
    rw [← GoMap.get_isSome_iff] at hk ⊢
    rw [← h1]
    exact hk

/-- Every visited name has a value in env after the run. -/
theorem resolveAll_visited (rt : Runtime) (vars : List (String × String))
    (st st' : EnvState) (k : String) (h : resolveAll rt st vars = some st')
    (hk : k ∈ vars.map Prod.fst) : ∃ x, st'.env.get k = some x := by
  obtain ⟨pre, v, post, heq, hpost⟩ := exists_last_visit vars k hk
  rw [heq] at h
  obtain ⟨h1, h2⟩ := resolveAll_env_last rt st st' pre post k v h hpost
  cases hv : hasPrefix v generatePrefix with
  | false => exact ⟨v, h1 hv⟩
  | true =>
    obtain ⟨x, _, hx⟩ := h2 hv
    exact ⟨x, hx⟩

/-- A run whose placeholder names are all held by the store returns, and
generates nothing. -/
theorem resolveAll_all_stored (rt : Runtime) (vars : List (String × String))
    (st : EnvState)
    (h : ∀ kv ∈ vars, hasPrefix kv.2 generatePrefix = true →
      ∃ x, st.existing.get kv.1 = some x) :
    ∃ st', resolveAll rt st vars = some st' ∧ st'.existing = st.existing ∧
      st'.generated = st.generated ∧ st'.pos = st.pos := by
  induction vars generalizing st with
  | nil => exact ⟨st, rfl, rfl, rfl, rfl⟩
  | cons kv vars ih =>
    have hstep : ∃ s, resolveVar rt st kv = some s ∧ s.existing = st.existing ∧
        s.generated = st.generated ∧ s.pos = st.pos := by
      cases hv : hasPrefix kv.2 generatePrefix with
      | false => exact ⟨_, resolveVar_literal rt st kv hv, rfl, rfl, rfl⟩
      | true =>
        obtain ⟨x, hx⟩ := h kv (List.mem_cons_self _ _) hv
        exact ⟨_, resolveVar_stored rt st kv x hv hx, rfl, rfl, rfl⟩
    obtain ⟨s, hs, e1, e2, e3⟩ := hstep
    obtain ⟨s', hs', f1, f2, f3⟩ := ih s (by
      intro x hx hv
      rw [e1]
      exact h x (List.mem_cons_of_mem _ hx) hv)
    exact ⟨s', by rw [resolveAll_cons, hs, Option.some_bind, hs'], f1.trans e1, f2.trans e2,
      f3.trans e3⟩

/-! ## Secrets across runs -/

/-- The store of the next run: loading the file written from the env of a run
(in any order of its entries) gives back, name by name, the env of that run,
when the declared names hold neither `=` nor a newline and the declared
literals hold no newline. -/
theorem store_of_next_run (file : Option String) (rt : Runtime)
    (services : GoMap ServiceConfig) (res : EnvState) (order : GoMap String)
    (hnames : ∀ kv ∈ declaredVars services, '=' ∉ kv.1.data ∧ '\n' ∉ kv.1.data)
    (hvalues : ∀ kv ∈ declaredVars services,
      hasPrefix kv.2 generatePrefix = false → '\n' ∉ kv.2.data)
    (hrun : generateEnvVarsRun file rt services = some res)
    (horder : List.Perm order res.env) (k : String) :
    (loadDotEnv (some (writeEnvFile order))).get k = res.env.get k := by
  unfold generateEnvVarsRun at hrun
  rw [generateEnvVarsFrom_eq] at hrun
  obtain ⟨hnd, henv, _⟩ := resolveAll_invariant rt _ _ res hrun hvalues
    (by simp [startState, GoMap.keys])
    (by intro k x hx; simp [startState, GoMap.get] at hx)
    (by intro k x hx; exact loadDotEnv_no_newline file k x hx)
  have hclean : ∀ kv ∈ order, '=' ∉ kv.1.data ∧ '\n' ∉ kv.1.data ∧ '\n' ∉ kv.2.data := by
    intro kv hkv
    have hmem : kv ∈ res.env := (horder.mem_iff).1 hkv
    have hkey : kv.1 ∈ res.env.keys := List.mem_map.2 ⟨kv, hmem, rfl⟩
    have hdecl : kv.1 ∈ (declaredVars services).map Prod.fst := by
      rcases resolveAll_env_keys rt _ _ res kv.1 hrun hkey with h | h
      · simp [startState, GoMap.keys] at h
      · exact h
    obtain ⟨d, hd, hdk⟩ := List.mem_map.1 hdecl
    have hn := hnames d hd
    rw [hdk] at hn
    exact ⟨hn.1, hn.2, henv kv.1 kv.2 (GoMap.get_of_mem res.env kv.1 kv.2 hnd hmem)⟩
  have hndo : (GoMap.keys order).Nodup := ((horder.map Prod.fst).nodup_iff).2 hnd
  rw [loadDotEnv_writeEnvFile order hclean, GoMap.setAll_get_nodup order k hndo,
    GoMap.get_perm order res.env k horder hnd]

/-- Counterexamples to C3 as stated.  First: a literal value of two lines
whose second line reads like the line of API_KEY; loading the file written
from the first run (entries in the order API_KEY, EXTRA) binds API_KEY to
changeme, which the second run returns in place of the secret of the first
run.  Second: a declared name that holds
`=`; the file of the first run is loaded under the name DB, so the second run
finds no value for the declared name and generates another secret. -/
theorem C3_idempotent_secrets_counterexample :
    (generateEnvVars none exampleRt [("api", c3Api)] =
        some [("API_KEY", "052a4f74"), ("EXTRA", "a=1\nAPI_KEY=changeme")] ∧
      generateEnvVars
          (some (writeEnvFile [("API_KEY", "052a4f74"), ("EXTRA", "a=1\nAPI_KEY=changeme")]))
          otherRt [("api", c3Api)] =
        some [("API_KEY", "changeme"), ("EXTRA", "a=1\nAPI_KEY=changeme")]) ∧
    (generateEnvVars none exampleRt [("api", c3Odd)] = some [("DB=PASS", "052a4f74")] ∧
      generateEnvVars (some (writeEnvFile [("DB=PASS", "052a4f74")])) otherRt
          [("api", c3Odd)] = some [("DB=PASS", "030e1924")]) := by
  decide

/-- C3 (amended): when the names declared in the effective set hold neither
`=` nor a newline and the literal values declared in it hold no newline, let
env1 be the result of generateEnvVars from any env file and any entropy
source, and let the env file be rewritten from env1 with its entries in any
order.  Then a second run of generateEnvVars on the same set with any other
entropy source returns, and for every name that the set declares with a
placeholder value its env holds the same value as env1. -/
theorem C3_idempotent_secrets (file : Option String) (rt1 rt2 : Runtime)
    (services : GoMap ServiceConfig) (env1 order : GoMap String)
    (hnames : ∀ kv ∈ declaredVars services, '=' ∉ kv.1.data ∧ '\n' ∉ kv.1.data)
    (hvalues : ∀ kv ∈ declaredVars services,
      hasPrefix kv.2 generatePrefix = false → '\n' ∉ kv.2.data)
    (hrun : generateEnvVars file rt1 services = some env1)
    (horder : List.Perm order env1) :
    ∃ env2 : GoMap String,
      generateEnvVars (some (writeEnvFile order)) rt2 services = some env2 ∧
      ∀ kv ∈ declaredVars services, hasPrefix kv.2 generatePrefix = true →
        (∃ x, env1.get kv.1 = some x) ∧ env2.get kv.1 = env1.get kv.1 := by
  cases hrun1 : generateEnvVarsRun file rt1 services with
  | none => simp [generateEnvVars, hrun1] at hrun
  | some res1 =>
    have henv1 : res1.env = env1 := by
      simpa [generateEnvVars, hrun1] using hrun
    subst henv1
    have hstore := store_of_next_run file rt1 services res1 order hnames hvalues hrun1 horder
    have hrun1' := hrun1
    unfold generateEnvVarsRun at hrun1'
    rw [generateEnvVarsFrom_eq] at hrun1'
    have hvisited : ∀ k, k ∈ (declaredVars services).map Prod.fst →
        ∃ x, res1.env.get k = some x :=
      fun k hk => resolveAll_visited rt1 _ _ res1 k hrun1' hk
    obtain ⟨res2, hrun2, hex2, _, _⟩ := resolveAll_all_stored rt2 (declaredVars services)
      (startState (loadDotEnv (some (writeEnvFile order)))) (by
        intro kv hkv _
        obtain ⟨x, hx⟩ := hvisited kv.1 (List.mem_map.2 ⟨kv, hkv, rfl⟩)
        exact ⟨x, (hstore kv.1).trans hx⟩)
    refine ⟨res2.env, ?_, ?_⟩
    · simp [generateEnvVars, generateEnvVarsRun, generateEnvVarsFrom_eq, hrun2]
    · intro kv hkv _
      have hk : kv.1 ∈ (declaredVars services).map Prod.fst := List.mem_map.2 ⟨kv, hkv, rfl⟩
      refine ⟨hvisited kv.1 hk, ?_⟩
      obtain ⟨pre, v, post, heq, hpost⟩ := exists_last_visit _ kv.1 hk
      rw [heq] at hrun1' hrun2
      obtain ⟨a1, _⟩ := resolveAll_env_last rt1 _ res1 pre post kv.1 v hrun1' hpost
      obtain ⟨b1, b2⟩ := resolveAll_env_last rt2 _ res2 pre post kv.1 v hrun2 hpost
      cases hv : hasPrefix v generatePrefix with
      | false => rw [a1 hv, b1 hv]
      | true =>
        obtain ⟨x, hx1, hx2⟩ := b2 hv
        rw [hx2, ← hx1, hex2]
        exact hstore kv.1

/-- Witness of C3: DB_PASS is declared with a placeholder; the second run,
with another entropy source, returns the secret of the first run. -/
theorem C3_idempotent_secrets_witness :
    ∃ env2 : GoMap String,
      generateEnvVars (some (writeEnvFile [("DB_PASS", "052a4f74")])) otherRt
        [("api", c10Api)] = some env2 ∧
      env2.get "DB_PASS" = some "052a4f74" := by
  obtain ⟨env2, h1, h2⟩ := C3_idempotent_secrets none exampleRt otherRt [("api", c10Api)]
    [("DB_PASS", "052a4f74")] [("DB_PASS", "052a4f74")] (by decide) (by decide) (by decide)
    (List.Perm.refl _)
  exact ⟨env2, h1, (h2 ("DB_PASS", placeholder "8") (by decide) (by decide)).2⟩

/-! ## Lengths that are not positive, and a failing entropy source -/

/-- C11 (evaluation of the code): the length 0 gives the empty string, but
for every negative length generateRandomString does not return (the
allocation of the buffer panics); the placeholder that requests -5
characters parses to -5, and the run of generateEnvVars on a set that
declares it does not return. -/
theorem C11_negative_length_panics :
    (∀ (rt : Runtime) (pos : Nat),
      generateRandomString rt pos 0 = some (String.mk [], pos)) ∧
    (∀ (rt : Runtime) (pos n : Nat),
      generateRandomString rt pos (Int.negSucc n) = none) ∧
    parseLength (placeholder "-5") = -5 ∧
    generateRandomString exampleRt 0 (parseLength (placeholder "-5")) = none ∧
    generateEnvVars none exampleRt [("api", c11Api)] = none := by
  refine ⟨?_, ?_, by decide, by decide, by decide⟩
  · intro rt pos
    exact generateRandomString_zero rt pos
  · intro rt pos n
    simp [generateRandomString, Int.negSucc_lt_zero]

/-- Every secret that a step records has been built from bytes that the
read has delivered, and is what the store holds for its name. -/
theorem resolveVar_generated (rt : Runtime) (st st' : EnvState) (kv : String × String)
    (h : resolveVar rt st kv = some st')
    (hst : ∀ t ∈ st.generated, st.existing.get t.1 = some t.2.2 ∧
      ∃ pos b, randRead rt.rand pos t.2.1.toNat = some b ∧
        t.2.2 = String.mk ((hexEncode b).take t.2.1.toNat)) :
    ∀ t ∈ st'.generated, st'.existing.get t.1 = some t.2.2 ∧
      ∃ pos b, randRead rt.rand pos t.2.1.toNat = some b ∧
        t.2.2 = String.mk ((hexEncode b).take t.2.1.toNat) := by
  rcases resolveVar_cases rt st st' kv h with
    ⟨_, rfl⟩ | ⟨_, x, _, rfl⟩ | ⟨_, hnone, s, pos, hg, rfl⟩
  · exact hst
  · exact hst
  · intro t ht
    obtain ⟨_, _, _, b, hb, hs⟩ := generateRandomString_built rt st.pos _ s pos hg
    rcases List.mem_append.1 ht with h1 | h1
    · obtain ⟨a1, a2⟩ := hst t h1
      refine ⟨?_, a2⟩
      have hne : kv.1 ≠ t.1 := by
        intro e
        rw [e, a1] at hnone
        cases hnone
      exact (GoMap.get_set_ne _ _ _ _ hne).trans a1
    · rw [List.mem_singleton] at h1
      subst h1
      exact ⟨GoMap.get_set_self _ _ _, st.pos, b, hb, hs⟩

theorem resolveAll_generated (rt : Runtime) (vars : List (String × String))
    (st st' : EnvState) (h : resolveAll rt st vars = some st')
    (hst : ∀ t ∈ st.generated, st.existing.get t.1 = some t.2.2 ∧
      ∃ pos b, randRead rt.rand pos t.2.1.toNat = some b ∧
        t.2.2 = String.mk ((hexEncode b).take t.2.1.toNat)) :
    ∀ t ∈ st'.generated, st'.existing.get t.1 = some t.2.2 ∧
      ∃ pos b, randRead rt.rand pos t.2.1.toNat = some b ∧
        t.2.2 = String.mk ((hexEncode b).take t.2.1.toNat) := by
  induction vars generalizing st with
  | nil =>
    rw [resolveAll_nil] at h
    cases h
    exact hst
  | cons kv vars ih =>
    rw [resolveAll_cons] at h
    cases h1 : resolveVar rt st kv with
    | none => simp [h1] at h
    | some s =>
      rw [h1, Option.some_bind] at h
      exact ih s h (resolveVar_generated rt st s kv h1 hst)

/-- C12: when the read of the entropy source fails while a secret is being
generated, generateRandomString does not return a value, and neither does
the run of generateEnvVars that has reached this generation; a secret that
generateRandomString returns, and every secret that a run generates and
stores, is the hex text of bytes that the read has delivered, never of
unfilled bytes of the buffer. -/
theorem C12_read_failure_aborts (file : Option String) (rt : Runtime)
    (services : GoMap ServiceConfig) :
    (∀ (pos : Nat) (n : Int), randRead rt.rand pos n.toNat = none →
      generateRandomString rt pos n = none) ∧
    (∀ (pos : Nat) (n : Int) (s : String) (p : Nat),
      generateRandomString rt pos n = some (s, p) →
      ∃ b, randRead rt.rand pos n.toNat = some b ∧ b.length = n.toNat ∧
        (∀ j < n.toNat, ∃ x, rt.rand (pos + j) = some x ∧ b[j]? = some (x % 256)) ∧
        s = String.mk ((hexEncode b).take n.toNat)) ∧
    (∀ (pre : List (String × String)) (kv : String × String) (post : List (String × String))
      (st1 : EnvState),
      declaredVars services = pre ++ kv :: post →
      resolveAll rt (startState (loadDotEnv file)) pre = some st1 →
      hasPrefix kv.2 generatePrefix = true → st1.existing.get kv.1 = none →
      randRead rt.rand st1.pos (parseLength kv.2).toNat = none →
      generateEnvVars file rt services = none) ∧
    (∀ res : EnvState, generateEnvVarsRun file rt services = some res →
      ∀ t ∈ res.generated, res.existing.get t.1 = some t.2.2 ∧
        ∃ pos b, randRead rt.rand pos t.2.1.toNat = some b ∧
          t.2.2 = String.mk ((hexEncode b).take t.2.1.toNat)) := by
  have hfail : ∀ (pos : Nat) (n : Int), randRead rt.rand pos n.toNat = none →
      generateRandomString rt pos n = none := by
    intro pos n hread
    unfold generateRandomString
    by_cases hn : n < 0 ∨ n.toNat > rt.allocLimit
    · rw [if_pos hn]
    · rw [if_neg hn, hread]
  refine ⟨hfail, ?_, ?_, ?_⟩
  · intro pos n s p h
    obtain ⟨_, _, _, b, hb, hs⟩ := generateRandomString_built rt pos n s p h
    obtain ⟨hlen, hbytes⟩ := randRead_some rt.rand n.toNat pos b hb
    exact ⟨b, hb, hlen, hbytes, hs⟩
  · intro pre kv post st1 hdecl hpre hv hx hread
    have hstep : resolveVar rt st1 kv = none := by
      simp [resolveVar, hv, hx, hfail st1.pos (parseLength kv.2) hread]
    simp [generateEnvVars, generateEnvVarsRun, generateEnvVarsFrom_eq, hdecl,
      resolveAll_append, hpre, resolveAll_cons, hstep]
  · intro res hrun
    unfold generateEnvVarsRun at hrun
    rw [generateEnvVarsFrom_eq] at hrun
    exact resolveAll_generated rt _ _ res hrun (by
      intro t ht
      simp [startState] at ht)

/-- Witness of C12: on a machine whose entropy source fails at once, the
generation of the secret of DB_PASS does not return, and neither does the
run. -/
theorem C12_read_failure_aborts_witness :
    generateRandomString failingRt 0 8 = none ∧
    generateEnvVars none failingRt [("api", c10Api)] = none :=
  ⟨(C12_read_failure_aborts none failingRt [("api", c10Api)]).1 0 8 (by decide),
    (C12_read_failure_aborts none failingRt [("api", c10Api)]).2.2.1 []
      ("DB_PASS", placeholder "8") [("DB_PASS", placeholder "16")]
      (startState (loadDotEnv none)) (by decide) (by decide) (by decide) (by decide)
      (by decide)⟩

/-! ## Literals and the names of the returned env -/

theorem generateEnvVars_eq_some (file : Option String) (rt : Runtime)
    (services : GoMap ServiceConfig) (env : GoMap String)
    (h : generateEnvVars file rt services = some env) :
    ∃ res : EnvState,
      resolveAll rt (startState (loadDotEnv file)) (declaredVars services) = some res ∧
      res.env = env := by
  cases hrun : generateEnvVarsRun file rt services with
  | none => simp [generateEnvVars, hrun] at h
  | some res =>
    refine ⟨res, ?_, by simpa [generateEnvVars, hrun] using h⟩
    unfold generateEnvVarsRun at hrun
    rw [generateEnvVarsFrom_eq] at hrun
    exact hrun

/-- The names that generateEnvVars visits are the names declared in the own
environment of a service of the set or in the environment of one of its
dependencies. -/
theorem mem_declaredVars_keys (services : GoMap ServiceConfig) (name : String) :
    name ∈ (declaredVars services).map Prod.fst ↔
      ∃ e ∈ services, name ∈ e.2.Environment.keys ∨
        ∃ d ∈ e.2.Dependencies, name ∈ d.2.Environment.keys := by
  simp only [declaredVars, GoMap.keys, List.mem_map, List.mem_flatMap, List.mem_append]
  constructor
  · rintro ⟨kv, ⟨e, he, hkv | ⟨d, hd, hkv⟩⟩, hk⟩
    · exact ⟨e, he, Or.inl ⟨kv, hkv, hk⟩⟩
    · exact ⟨e, he, Or.inr ⟨d, hd, kv, hkv, hk⟩⟩
  · rintro ⟨e, he, ⟨kv, hkv, hk⟩ | ⟨d, hd, kv, hkv, hk⟩⟩
    · exact ⟨kv, ⟨e, he, Or.inl hkv⟩, hk⟩
    · exact ⟨kv, ⟨e, he, Or.inr ⟨d, hd, hkv⟩⟩, hk⟩

/-- C16: when the last visit of a name in a run of generateEnvVars carries a
literal value v, the returned env maps the name to v, whatever the earlier
visits assigned and whatever the persisted store holds. -/
theorem C16_literal_last_write_wins (file : Option String) (rt : Runtime)
    (services : GoMap ServiceConfig) (name v : String) (pre post : List (String × String))
    (hlast : declaredVars services = pre ++ (name, v) :: post)
    (hpost : ∀ kv ∈ post, kv.1 ≠ name)
    (hlit : hasPrefix v generatePrefix = false) :
    ∀ env : GoMap String, generateEnvVars file rt services = some env →
      env.get name = some v := by
  intro env henv
  obtain ⟨res, hres, rfl⟩ := generateEnvVars_eq_some file rt services env henv
  rw [hlast] at hres
  exact (resolveAll_env_last rt _ res pre post name v hres hpost).1 hlit

/-- Witness of C16: the env file holds DB_PASS=hunter2, the service declares
DB_PASS with a placeholder and its dependency, visited last, with the
literal changeme. -/
theorem C16_literal_last_write_wins_witness :
    generateEnvVars (some "DB_PASS=hunter2\n") exampleRt [("api", c16Api)] =
      some [("DB_PASS", "changeme")] ∧
    GoMap.get [("DB_PASS", "changeme")] "DB_PASS" = some "changeme" :=
  ⟨by decide,
    C16_literal_last_write_wins (some "DB_PASS=hunter2\n") exampleRt [("api", c16Api)]
      "DB_PASS" "changeme" [("DB_PASS", placeholder "8")] [] (by decide) (by decide)
      (by decide) [("DB_PASS", "changeme")] (by decide)⟩

/-- C19: the keys of the map returned by generateEnvVars are exactly the
names declared in the own environment of a service of the set or in the
environment of one of its dependencies; so a name that only the persisted
store holds is no key of the result, and no line is written for it when the
env file is rewritten from the result. -/
theorem C19_env_keys (file : Option String) (rt : Runtime)
    (services : GoMap ServiceConfig) :
    ∀ env : GoMap String, generateEnvVars file rt services = some env →
      (∀ name : String, name ∈ env.keys ↔
        ∃ e ∈ services, name ∈ e.2.Environment.keys ∨
          ∃ d ∈ e.2.Dependencies, name ∈ d.2.Environment.keys) ∧
      (∀ name : String, name ∈ (loadDotEnv file).keys →
        (¬ ∃ e ∈ services, name ∈ e.2.Environment.keys ∨
          ∃ d ∈ e.2.Dependencies, name ∈ d.2.Environment.keys) →
        name ∉ env.keys ∧
        ∀ order : GoMap String, List.Perm order env → ∀ kv ∈ order, kv.1 ≠ name) := by
  intro env henv
  obtain ⟨res, hres, rfl⟩ := generateEnvVars_eq_some file rt services env henv
  have hkeys : ∀ name : String, name ∈ res.env.keys ↔
      ∃ e ∈ services, name ∈ e.2.Environment.keys ∨
        ∃ d ∈ e.2.Dependencies, name ∈ d.2.Environment.keys := by
    intro name
    rw [← mem_declaredVars_keys]
    constructor
    · intro hk
      rcases resolveAll_env_keys rt _ _ res name hres hk with h | h
      · simp [startState, GoMap.keys] at h
      · exact h
    · intro hk
      obtain ⟨x, hx⟩ := resolveAll_visited rt _ _ res name hres hk
      rw [← GoMap.get_isSome_iff, hx]
      rfl
  refine ⟨hkeys, ?_⟩
  intro name _ hnot
  have hnk : name ∉ res.env.keys := fun h => hnot ((hkeys name).1 h)
  refine ⟨hnk, ?_⟩
  intro order hperm kv hkv hname
  apply hnk
  rw [← hname]
  exact List.mem_map.2 ⟨kv, (hperm.mem_iff).1 hkv, rfl⟩

/-- Witness of C19: the env file holds OLD_KEY and DB_PASS, the set declares
DB_PASS only; the result has the single key DB_PASS. -/
theorem C19_env_keys_witness :
    generateEnvVars (some "OLD_KEY=abc\nDB_PASS=hunter2\n") exampleRt [("api", c4Api)] =
      some [("DB_PASS", "hunter2")] ∧
    "OLD_KEY" ∉ GoMap.keys [(("DB_PASS" : String), ("hunter2" : String))] :=
  ⟨by decide,
    ((C19_env_keys (some "OLD_KEY=abc\nDB_PASS=hunter2\n") exampleRt [("api", c4Api)]
      [("DB_PASS", "hunter2")] (by decide)).2 "OLD_KEY" (by decide) (by decide)).1⟩

/-! ## Round trip of the env file -/

theorem GoMap.set_of_not_mem {V : Type} (m : GoMap V) (k : String) (v : V)
    (h : k ∉ GoMap.keys m) : GoMap.set m k v = m ++ [(k, v)] := by
  induction m with
  | nil => rfl
  | cons e m ih =>
    obtain ⟨k0, v0⟩ := e
    simp only [GoMap.keys, List.map_cons, List.mem_cons, not_or] at h
    have h0 : ¬ k0 = k := fun e => h.1 e.symm
    simp only [GoMap.set, h0, if_false, List.cons_append]
    rw [ih h.2]

theorem GoMap.setAll_of_nodup {V : Type} (ws : List (String × V)) (m : GoMap V)
    (h : (GoMap.keys (m ++ ws)).Nodup) : GoMap.setAll m ws = m ++ ws := by
  induction ws generalizing m with
  | nil => simp [GoMap.setAll]
  | cons w ws ih =>
    have hw : w.1 ∉ GoMap.keys m := by
      simp only [GoMap.keys, List.map_append, List.map_cons] at h
      intro hmem
      exact (List.nodup_append.1 h).2.2 hmem (List.mem_cons_self _ _)
    have hassoc : (m ++ [(w.1, w.2)]) ++ ws = m ++ w :: ws := by simp
    rw [GoMap.setAll_cons, GoMap.set_of_not_mem m w.1 w.2 hw, ih _ (by rw [hassoc]; exact h),
      hassoc]

/-- C17: for an env map (distinct keys) whose keys hold neither `=` nor a
newline and whose values hold no newline, loading the text that writeEnvFile
writes for its entries, in any order, gives back the same entries: the same
keys with the same values, and nothing else. -/
theorem C17_env_file_round_trip (env order : GoMap String)
    (hnd : env.keys.Nodup) (hperm : List.Perm order env)
    (hclean : ∀ kv ∈ env, '=' ∉ kv.1.data ∧ '\n' ∉ kv.1.data ∧ '\n' ∉ kv.2.data) :
    loadDotEnv (some (writeEnvFile order)) = order ∧
    List.Perm (loadDotEnv (some (writeEnvFile order))) env ∧
    ∀ k : String, (loadDotEnv (some (writeEnvFile order))).get k = env.get k := by
  have hclean2 : ∀ kv ∈ order, '=' ∉ kv.1.data ∧ '\n' ∉ kv.1.data ∧ '\n' ∉ kv.2.data :=
    fun kv hkv => hclean kv ((hperm.mem_iff).1 hkv)
  have hndo : (GoMap.keys order).Nodup := ((hperm.map Prod.fst).nodup_iff).2 hnd
  have hload : loadDotEnv (some (writeEnvFile order)) = order := by
    rw [loadDotEnv_writeEnvFile order hclean2, GoMap.setAll_of_nodup order [] (by simpa using hndo)]
    rfl
  refine ⟨hload, ?_, ?_⟩
  · rw [hload]
    exact hperm
  · intro k
    rw [hload]
    exact GoMap.get_perm order env k hperm hnd

/-- Witness of C17: two entries, written in the other order. -/
theorem C17_env_file_round_trip_witness :
    loadDotEnv (some (writeEnvFile [("B", "x=y"), ("A", "1")])) = [("B", "x=y"), ("A", "1")] ∧
    ∀ k : String, (loadDotEnv (some (writeEnvFile [("B", "x=y"), ("A", "1")]))).get k =
      GoMap.get [("A", "1"), ("B", "x=y")] k := by
  have h := C17_env_file_round_trip [("A", "1"), ("B", "x=y")] [("B", "x=y"), ("A", "1")]
    (by decide) (List.Perm.swap _ _ _) (by decide)
  exact ⟨h.1, h.2.2⟩

/-! ## Entries of the descriptor -/

theorem ImageOrKey_eq (d : DependencyConfig) : d.ImageOrKey = d.Image := by
  unfold DependencyConfig.ImageOrKey
  by_cases h : d.Image = ""
  · simp [h]
  · simp [h]

theorem str_empty_append (s : String) : "" ++ s = s := by
  apply String.ext
  simp [String.data_append]

/-- Copying from the flat env gives every declared name the value that the
flat env has for it. -/
theorem copyWrites_get (env environment m : GoMap String) (k : String)
    (hk : k ∈ environment.keys) :
    (GoMap.setAll m (copyWrites env environment)).get k = some (envValue env k) := by
  obtain ⟨kv, hkv, hkk⟩ := List.mem_map.1 hk
  rcases GoMap.setAll_get_cases (copyWrites env environment) m k with
    ⟨_, h2⟩ | ⟨w, hw, hwk, hget⟩
  · exact absurd hkk (h2 (kv.1, envValue env kv.1) ((mem_copyWrites env _ _).2 ⟨kv, hkv, rfl⟩))
  · obtain ⟨kv2, _, hw2⟩ := (mem_copyWrites env _ w).1 hw
    rw [hget, hw2]
    rw [hw2] at hwk
    simp only at hwk
    rw [hwk]

theorem copyWrites_keys (env environment : GoMap String) (k : String) :
    k ∈ (copyWrites env environment).map Prod.fst ↔ k ∈ environment.keys := by
  simp [copyWrites, GoMap.keys, List.map_map, Function.comp_def]

theorem envValue_of_get (env : GoMap String) (k x : String) (h : env.get k = some x) :
    envValue env k = x := by
  simp [envValue, h]

/-- Counterexample to C13 as stated: with the effective services web (one
dependency under the key db, image postgres, version 14) and web_db, the
entry stored under web_db is the entry of the second service, with the image
tool:2.0.  And for a flat env that does not hold a name declared by the
dependency, the hidden entry pairs the name with the empty string, which is
no pair of the flat env. -/
theorem C13_hidden_entry_counterexample :
    (("web", c5Web) ∈ c5Services ∧ ("db", exampleDb) ∈ c5Web.Dependencies ∧
      exampleDb.Image ++ ":" ++ exampleDb.Version = "postgres:14" ∧
      ((buildCompose asciiUpper c5Services []).Services.get ("web" ++ "_" ++ "db")).map
        ComposeService.Image = some "tool:2.0") ∧
    (((buildCompose asciiUpper [("api", c4Api)] []).Services.get ("api" ++ "_" ++ "db")).map
        ComposeService.Environment = some [("DB_PASS", "")] ∧
      (("DB_PASS", "") : String × String) ∉ ([] : GoMap String)) := by
  decide

/-- C13 (amended): for a service S and a dependency key depKey of S with
dependency D, when the name S_depKey is not the name of an effective service
and is not the hidden name of a dependency of a service other than S, the
descriptor entry under S_depKey has the image D.image:D.version (so
:D.version when D.image is empty), expose equal to the one-element list of
the decimal string of D.expose, restart policy always, no ports, no command
and an empty depends-on list; its environment has exactly the keys declared
in D.environment, each with the value that the flat env has for it (the empty
string when the flat env does not hold the key). -/
theorem C13_hidden_entry (toUpper : String → String) (services : GoMap ServiceConfig)
    (env : GoMap String) (S : String) (svc : ServiceConfig) (depKey : String)
    (dep : DependencyConfig)
    (hnd : services.keys.Nodup) (hS : (S, svc) ∈ services)
    (hdnd : svc.Dependencies.keys.Nodup) (hdep : (depKey, dep) ∈ svc.Dependencies)
    (hnoSvc : ∀ e ∈ services, e.1 ≠ S ++ "_" ++ depKey)
    (hnoHidden : ∀ e ∈ services, ∀ d ∈ e.2.Dependencies,
      e.1 ++ "_" ++ d.1 = S ++ "_" ++ depKey → e.1 = S) :
    ∃ entry : ComposeService,
      (buildCompose toUpper services env).Services.get (S ++ "_" ++ depKey) = some entry ∧
      entry.Image = dep.Image ++ ":" ++ dep.Version ∧
      (dep.Image = "" → entry.Image = ":" ++ dep.Version) ∧
      entry.Expose = [itoa dep.Expose] ∧ entry.Restart = "always" ∧
      entry.Ports = [] ∧ entry.Command = "" ∧ entry.DependsOn = [] ∧
      (∀ k : String, k ∈ entry.Environment.keys ↔ k ∈ dep.Environment.keys) ∧
      (∀ k ∈ dep.Environment.keys, entry.Environment.get k = some (envValue env k)) ∧
      (∀ (k x : String), k ∈ dep.Environment.keys → env.get k = some x →
        entry.Environment.get k = some x ∧ (k, x) ∈ env) := by
  have hentry : (buildCompose toUpper services env).Services.get (S ++ "_" ++ depKey) =
      some (hiddenService env (S ++ "_internal") (depKey, dep)) := by
    rw [buildCompose_services]
    rcases GoMap.setAll_get_cases (serviceWrites toUpper env services) []
        (S ++ "_" ++ depKey) with ⟨_, h2⟩ | ⟨w, hw, hk, hget⟩
    · refine absurd rfl (h2 (S ++ "_" ++ depKey, hiddenService env (S ++ "_internal")
        (depKey, dep)) ?_)
      exact (mem_serviceWrites toUpper env services _).2
        ⟨(S, svc), hS, Or.inl ((mem_hiddenWrites env _ _).2 ⟨(depKey, dep), hdep, rfl⟩)⟩
    · rw [hget]
      obtain ⟨e, he, hcase⟩ := (mem_serviceWrites toUpper env services w).1 hw
      rcases hcase with hh | ho
      · obtain ⟨d, hd, hwd⟩ := (mem_hiddenWrites env e w).1 hh
        rw [hwd] at hk
        have hname : e.1 = S := hnoHidden e he d hd hk
        obtain ⟨n, s⟩ := e
        simp only at hname hk hd hwd
        subst hname
        have hs : s = svc := by
          have h1 := GoMap.get_of_mem services n s hnd he
          have h2 := GoMap.get_of_mem services n svc hnd hS
          rw [h1] at h2
          exact Option.some.inj h2
        subst hs
        have hkey : d.1 = depKey := by
          have h1 : n ++ ("_" ++ d.1) = n ++ ("_" ++ depKey) := by
            rw [← String.append_assoc, ← String.append_assoc]
            exact hk
          exact str_append_left_cancel _ _ _ (str_append_left_cancel _ _ _ h1)
        obtain ⟨dk, dv⟩ := d
        simp only at hkey hd hwd
        subst hkey
        have hdv : dv = dep := by
          have h1 := GoMap.get_of_mem s.Dependencies dk dv hdnd hd
          have h2 := GoMap.get_of_mem s.Dependencies dk dep hdnd hdep
          rw [h1] at h2
          exact Option.some.inj h2
        subst hdv
        rw [hwd]
      · rw [ho] at hk
        exact absurd hk (hnoSvc e he)
  have henv : (hiddenService env (S ++ "_internal") (depKey, dep)).Environment =
      GoMap.setAll [] (copyWrites env dep.Environment) := copyEnv_eq env [] dep.Environment
  refine ⟨_, hentry, ?_, ?_, rfl, rfl, rfl, rfl, rfl, ?_, ?_, ?_⟩
  · show dep.ImageOrKey ++ ":" ++ dep.Version = _
    rw [ImageOrKey_eq]
  · intro himg
    show dep.ImageOrKey ++ ":" ++ dep.Version = _
    rw [ImageOrKey_eq, himg, str_empty_append]
  · intro k
    rw [henv, GoMap.setAll_keys, copyWrites_keys]
    simp [GoMap.keys]
  · intro k hk
    rw [henv]
    exact copyWrites_get env dep.Environment [] k hk
  · intro k x hk hx
    rw [henv, copyWrites_get env dep.Environment [] k hk, envValue_of_get env k x hx]
    exact ⟨rfl, GoMap.mem_of_get env k x hx⟩

/-- Witness of C13: service api with the dependency key db (image postgres,
version 14, expose 5432, environment DB_PASS) and a flat env that holds
DB_PASS. -/
theorem C13_hidden_entry_witness :
    ∃ entry : ComposeService,
      (buildCompose asciiUpper [("api", c4Api)] [("DB_PASS", "hunter2")]).Services.get
        "api_db" = some entry ∧
      entry.Image = "postgres:14" ∧ entry.Expose = ["5432"] ∧
      entry.Environment.get "DB_PASS" = some "hunter2" := by
  obtain ⟨entry, h1, h2, _, h4, _, _, _, _, _, _, h11⟩ :=
    C13_hidden_entry asciiUpper [("api", c4Api)] [("DB_PASS", "hunter2")] "api" c4Api "db"
      { exampleDb with Environment := [("DB_PASS", placeholder "16")] }
      (by decide) (by decide) (by decide) (by decide) (by decide) (by decide)
  exact ⟨entry, h1, h2, h4, (h11 "DB_PASS" "hunter2" (by decide) (by decide)).1⟩

theorem wireWrites_keys (toUpper : String → String) (name : String)
    (deps : GoMap DependencyConfig) (k : String) :
    k ∈ (wireWrites toUpper name deps).map Prod.fst ↔
      ∃ d ∈ deps, k = toUpper d.1 ++ "_HOST" ∨ k = toUpper d.1 ++ "_PORT" := by
  constructor
  · intro hk
    obtain ⟨w, hw, hwk⟩ := List.mem_map.1 hk
    obtain ⟨d, hd, hwd | hwd⟩ := (mem_wireWrites toUpper name deps w).1 hw
    · exact ⟨d, hd, Or.inl (by rw [← hwk, hwd])⟩
    · exact ⟨d, hd, Or.inr (by rw [← hwk, hwd])⟩
  · rintro ⟨d, hd, hk | hk⟩
    · exact List.mem_map.2 ⟨(toUpper d.1 ++ "_HOST", name ++ "_" ++ d.1),
        (mem_wireWrites toUpper name deps _).2 ⟨d, hd, Or.inl rfl⟩, hk.symm⟩
    · exact List.mem_map.2 ⟨(toUpper d.1 ++ "_PORT", itoa d.2.Expose),
        (mem_wireWrites toUpper name deps _).2 ⟨d, hd, Or.inr rfl⟩, hk.symm⟩

/-- Counterexample to C14 as stated: the effective service web_db declares
MODE, and the dependency db of the service web, visited later, takes the
hidden name web_db; the entry stored under web_db has an empty environment. -/
theorem C14_own_environment_counterexample :
    ("web_db", c14Plain) ∈ c14Services ∧ "MODE" ∈ c14Plain.Environment.keys ∧
    ((buildCompose asciiUpper c14Services [("MODE", "prod")]).Services.get "web_db").map
      ComposeService.Environment = some [] := by
  decide

/-- C14 (amended): for a service S whose name no hidden dependency service
takes, the environment of the descriptor entry of S has as keys exactly the
names declared in S.environment together with the injected names
UPPER(depKey)_HOST and UPPER(depKey)_PORT of the dependencies of S, and for
every name declared in S.environment its value is the value that the flat
env has for the name. -/
theorem C14_own_environment (toUpper : String → String) (services : GoMap ServiceConfig)
    (env : GoMap String) (S : String) (svc : ServiceConfig)
    (hnd : services.keys.Nodup) (hS : (S, svc) ∈ services)
    (hnoHidden : ∀ e ∈ services, ∀ d ∈ e.2.Dependencies, e.1 ++ "_" ++ d.1 ≠ S) :
    ∃ entry : ComposeService,
      (buildCompose toUpper services env).Services.get S = some entry ∧
      (∀ k : String, k ∈ entry.Environment.keys ↔
        (k ∈ svc.Environment.keys ∨
          ∃ d ∈ svc.Dependencies, k = toUpper d.1 ++ "_HOST" ∨ k = toUpper d.1 ++ "_PORT")) ∧
      (∀ k ∈ svc.Environment.keys, entry.Environment.get k = some (envValue env k)) := by
  refine ⟨ownService toUpper env (S, svc),
    buildCompose_get_own toUpper services env S svc hnd hS hnoHidden, ?_, ?_⟩
  · intro k
    show k ∈ GoMap.keys (GoMap.setAll [] (wireWrites toUpper S svc.Dependencies ++
      copyWrites env svc.Environment)) ↔ _
    rw [GoMap.setAll_keys, List.map_append, List.mem_append, wireWrites_keys, copyWrites_keys]
    simp only [GoMap.keys, List.map_nil, List.not_mem_nil, false_or]
    exact or_comm
  · intro k hk
    show (GoMap.setAll [] (wireWrites toUpper S svc.Dependencies ++
      copyWrites env svc.Environment)).get k = _
    rw [GoMap.setAll_append]
    exact copyWrites_get env svc.Environment _ k hk

/-- Witness of C14: service foo declares MODE and has the dependency key
cache. -/
theorem C14_own_environment_witness :
    ∃ entry : ComposeService,
      (buildCompose asciiUpper [("foo", c7Foo)] [("MODE", "prod")]).Services.get "foo"
        = some entry ∧
      ("MODE" ∈ entry.Environment.keys ∧ "CACHE_HOST" ∈ entry.Environment.keys ∧
        "CACHE_PORT" ∈ entry.Environment.keys) ∧
      entry.Environment.get "MODE" = some "prod" := by
  obtain ⟨entry, h1, h2, h3⟩ :=
    C14_own_environment asciiUpper [("foo", c7Foo)] [("MODE", "prod")] "foo" c7Foo
      (by decide) (by decide) (by decide)
  refine ⟨entry, h1, ⟨?_, ?_, ?_⟩, h3 "MODE" (by decide)⟩
  · exact (h2 "MODE").2 (Or.inl (by decide))
  · exact (h2 "CACHE_HOST").2 (Or.inr ⟨("cache", c7Cache), by decide, Or.inl (by decide)⟩)
  · exact (h2 "CACHE_PORT").2 (Or.inr ⟨("cache", c7Cache), by decide, Or.inr (by decide)⟩)

/-- Counterexample to C15 as stated: the effective service web_db has the
image tool, version 2.0, and no dependency, and the dependency db of the
service web, visited later, takes the hidden name web_db; the entry stored
under web_db has the image postgres:14, no ports and the single network
web_internal. -/
theorem C15_own_entry_counterexample :
    ("web_db", c14Plain) ∈ c14Services ∧
    c14Plain.Image ++ ":" ++ c14Plain.Version = "tool:2.0" ∧
    c14Plain.Ports = ["9000:9000"] ∧ c14Plain.Dependencies = [] ∧
    ((buildCompose asciiUpper c14Services [("MODE", "prod")]).Services.get "web_db").map
      (fun entry => (entry.Image, entry.Ports, entry.Networks)) =
        some ("postgres:14", [], ["web_internal"]) := by
  decide

/-- C15 (amended): for a service S whose name no hidden dependency service
takes, the descriptor entry stored under the name S has the image
S.image:S.version, the effective ports of S, the restart policy always, and
network membership exactly default when S has no dependency and exactly
default, S_internal when S has at least one dependency. -/
theorem C15_own_entry (toUpper : String → String) (services : GoMap ServiceConfig)
    (env : GoMap String) (S : String) (svc : ServiceConfig)
    (hnd : services.keys.Nodup) (hS : (S, svc) ∈ services)
    (hnoHidden : ∀ e ∈ services, ∀ d ∈ e.2.Dependencies, e.1 ++ "_" ++ d.1 ≠ S) :
    ∃ entry : ComposeService,
      (buildCompose toUpper services env).Services.get S = some entry ∧
      entry.Image = svc.Image ++ ":" ++ svc.Version ∧
      entry.Ports = svc.Ports ∧ entry.Restart = "always" ∧
      (svc.Dependencies.length = 0 → entry.Networks = ["default"]) ∧
      (0 < svc.Dependencies.length → entry.Networks = ["default", S ++ "_internal"]) := by
  refine ⟨ownService toUpper env (S, svc),
    buildCompose_get_own toUpper services env S svc hnd hS hnoHidden, rfl, rfl, rfl, ?_, ?_⟩
  · intro h0
    simp [ownService, h0]
  · intro hpos
    have hpos2 : svc.Dependencies.length > 0 := hpos
    simp [ownService, hpos2]

/-- Witness of C15: service foo with one dependency, next to a service
without dependencies. -/
theorem C15_own_entry_witness :
    (∃ entry : ComposeService,
      (buildCompose asciiUpper [("foo", c7Foo), ("tool", c14Plain)] []).Services.get "foo"
        = some entry ∧
      entry.Image = "app:1.0" ∧ entry.Networks = ["default", "foo_internal"]) ∧
    (∃ entry : ComposeService,
      (buildCompose asciiUpper [("foo", c7Foo), ("tool", c14Plain)] []).Services.get "tool"
        = some entry ∧
      entry.Ports = ["9000:9000"] ∧ entry.Networks = ["default"]) := by
  obtain ⟨e1, a1, a2, _, _, _, a6⟩ :=
    C15_own_entry asciiUpper [("foo", c7Foo), ("tool", c14Plain)] [] "foo" c7Foo
      (by decide) (by decide) (by decide)
  obtain ⟨e2, b1, _, b3, _, b5, _⟩ :=
    C15_own_entry asciiUpper [("foo", c7Foo), ("tool", c14Plain)] [] "tool" c14Plain
      (by decide) (by decide) (by decide)
  exact ⟨⟨e1, a1, a2, a6 (by decide)⟩, ⟨e2, b1, b3, b5 (by decide)⟩⟩

/-! ## Hidden names without collisions -/

/-- With no underscore in the service names, a hidden name determines the
service and the dependency key. -/
theorem depName_inj (a b x y : String) (ha : '_' ∉ a.data) (hb : '_' ∉ b.data)
    (h : a ++ "_" ++ x = b ++ "_" ++ y) : a = b ∧ x = y := by
  have h1 := congrArg String.data h
  simp only [String.data_append] at h1
  rw [List.append_assoc, List.append_assoc, List.singleton_append,
    List.singleton_append] at h1
  have c1 := cutAt_append '_' a.data x.data ha
  have c2 := cutAt_append '_' b.data y.data hb
  rw [h1, c2] at c1
  simp only [Option.some.injEq, Prod.mk.injEq] at c1
  exact ⟨String.ext c1.1.symm, String.ext c1.2.symm⟩

/-- A hidden name holds an underscore, so it is no name without one. -/
theorem depName_ne (a x c : String) (hc : '_' ∉ c.data) : a ++ "_" ++ x ≠ c := by
  intro h
  apply hc
  rw [← h]
  simp only [String.data_append]
  simp

theorem mem_serviceWrites_keys (toUpper : String → String) (env : GoMap String)
    (services : GoMap ServiceConfig) (k : String) :
    k ∈ (serviceWrites toUpper env services).map Prod.fst ↔
      ∃ e ∈ services, k = e.1 ∨ ∃ d ∈ e.2.Dependencies, k = e.1 ++ "_" ++ d.1 := by
  constructor
  · intro hk
    obtain ⟨w, hw, hwk⟩ := List.mem_map.1 hk
    obtain ⟨e, he, hh | ho⟩ := (mem_serviceWrites toUpper env services w).1 hw
    · obtain ⟨d, hd, hwd⟩ := (mem_hiddenWrites env e w).1 hh
      exact ⟨e, he, Or.inr ⟨d, hd, by rw [← hwk, hwd]⟩⟩
    · exact ⟨e, he, Or.inl (by rw [← hwk, ho])⟩
  · rintro ⟨e, he, hk | ⟨d, hd, hk⟩⟩
    · exact List.mem_map.2 ⟨(e.1, ownService toUpper env e),
        (mem_serviceWrites toUpper env services _).2 ⟨e, he, Or.inr rfl⟩, hk.symm⟩
    · exact List.mem_map.2 ⟨(e.1 ++ "_" ++ d.1, hiddenService env (e.1 ++ "_internal") d),
        (mem_serviceWrites toUpper env services _).2
          ⟨e, he, Or.inl ((mem_hiddenWrites env e _).2 ⟨d, hd, rfl⟩)⟩, hk.symm⟩

theorem serviceWrites_cons (toUpper : String → String) (env : GoMap String)
    (e : String × ServiceConfig) (rest : GoMap ServiceConfig) :
    serviceWrites toUpper env (e :: rest) =
      (hiddenWrites env e ++ [(e.1, ownService toUpper env e)]) ++
        serviceWrites toUpper env rest := by
  simp [serviceWrites, List.flatMap_cons]

theorem hiddenWrites_keys (env : GoMap String) (e : String × ServiceConfig) :
    (hiddenWrites env e).map Prod.fst =
      (GoMap.keys e.2.Dependencies).map (fun dk => e.1 ++ "_" ++ dk) := by
  simp [hiddenWrites, GoMap.keys, List.map_map, Function.comp_def]

theorem serviceWrites_length (toUpper : String → String) (env : GoMap String)
    (services : GoMap ServiceConfig) :
    (serviceWrites toUpper env services).length =
      services.length + (services.map (fun e => e.2.Dependencies.length)).sum := by
  induction services with
  | nil => rfl
  | cons e rest ih =>
    rw [serviceWrites_cons, List.length_append, ih]
    simp [hiddenWrites]
    omega

/-- With distinct service names without underscore and distinct dependency
keys, no two assignments to the services map name the same key. -/
theorem serviceWrites_keys_nodup (toUpper : String → String) (env : GoMap String)
    (services : GoMap ServiceConfig) (hnd : services.keys.Nodup)
    (hdnd : ∀ e ∈ services, (GoMap.keys e.2.Dependencies).Nodup)
    (hus : ∀ e ∈ services, '_' ∉ e.1.data) :
    ((serviceWrites toUpper env services).map Prod.fst).Nodup := by
  induction services with
  | nil => simp [serviceWrites]
  | cons e rest ih =>
    simp only [GoMap.keys, List.map_cons, List.nodup_cons] at hnd
    have he := hus e (List.mem_cons_self _ _)
    rw [serviceWrites_cons, List.map_append, List.nodup_append]
    refine ⟨?_, ih hnd.2 (fun x hx => hdnd x (List.mem_cons_of_mem _ hx))
      (fun x hx => hus x (List.mem_cons_of_mem _ hx)), ?_⟩
    · rw [List.map_append, List.nodup_append, hiddenWrites_keys]
      refine ⟨?_, by simp, ?_⟩
      · refine List.Nodup.map ?_ (hdnd e (List.mem_cons_self _ _))
        intro x y hxy
        exact str_append_left_cancel _ _ _ hxy
      · intro k hk1 hk2
        simp only [List.map_cons, List.map_nil, List.mem_singleton] at hk2
        obtain ⟨dk, _, hdk⟩ := List.mem_map.1 hk1
        rw [hk2] at hdk
        exact depName_ne e.1 dk e.1 he hdk
    · intro k hk1 hk2
      obtain ⟨e2, he2, hcase2⟩ := (mem_serviceWrites_keys toUpper env rest k).1 hk2
      have hne : e.1 ≠ e2.1 := fun h => hnd.1 (List.mem_map.2 ⟨e2, he2, h.symm⟩)
      have hu2 := hus e2 (List.mem_cons_of_mem _ he2)
      rw [List.map_append, List.mem_append, hiddenWrites_keys] at hk1
      rcases hk1 with hk1 | hk1
      · obtain ⟨dk, _, hdk⟩ := List.mem_map.1 hk1
        rcases hcase2 with h2 | ⟨d2, _, h2⟩
        · rw [h2] at hdk
          exact depName_ne e.1 dk e2.1 hu2 hdk
        · rw [h2] at hdk
          exact hne (depName_inj e.1 e2.1 dk d2.1 he hu2 hdk).1
      · simp only [List.map_cons, List.map_nil, List.mem_singleton] at hk1
        rcases hcase2 with h2 | ⟨d2, _, h2⟩
        · exact hne (hk1.symm.trans h2)
        · rw [hk1] at h2
          exact depName_ne e2.1 d2.1 e.1 he h2.symm

/-- C20: when no effective service name holds the character `_` (service
names and the dependency keys of each service being distinct, as the keys of
a map are), hidden names do not collide: two pairs of a service and a
dependency key with the same hidden name are the same pair, no hidden name is
the name of an effective service, no two assignments to the services map of
the descriptor name the same key, and the map has exactly the number of
effective services plus the number of all their dependencies as entries. -/
theorem C20_no_collision (toUpper : String → String) (services : GoMap ServiceConfig)
    (env : GoMap String) (hnd : services.keys.Nodup)
    (hdnd : ∀ e ∈ services, (GoMap.keys e.2.Dependencies).Nodup)
    (hus : ∀ e ∈ services, '_' ∉ e.1.data) :
    (∀ e1 ∈ services, ∀ d1 ∈ e1.2.Dependencies, ∀ e2 ∈ services, ∀ d2 ∈ e2.2.Dependencies,
      e1.1 ++ "_" ++ d1.1 = e2.1 ++ "_" ++ d2.1 → e1.1 = e2.1 ∧ d1.1 = d2.1) ∧
    (∀ e1 ∈ services, ∀ d1 ∈ e1.2.Dependencies, ∀ e2 ∈ services,
      e1.1 ++ "_" ++ d1.1 ≠ e2.1) ∧
    ((serviceWrites toUpper env services).map Prod.fst).Nodup ∧
    (buildCompose toUpper services env).Services = serviceWrites toUpper env services ∧
    (buildCompose toUpper services env).Services.length =
      services.length + (services.map (fun e => e.2.Dependencies.length)).sum := by
  have hnodup := serviceWrites_keys_nodup toUpper env services hnd hdnd hus
  have hservices : (buildCompose toUpper services env).Services =
      serviceWrites toUpper env services := by
    rw [buildCompose_services, GoMap.setAll_of_nodup _ [] (by simpa [GoMap.keys] using hnodup)]
    rfl
  refine ⟨?_, ?_, hnodup, hservices, ?_⟩
  · intro e1 he1 d1 _ e2 he2 d2 _ h
    exact depName_inj e1.1 e2.1 d1.1 d2.1 (hus e1 he1) (hus e2 he2) h
  · intro e1 _ d1 _ e2 he2
    exact depName_ne e1.1 d1.1 e2.1 (hus e2 he2)
  · rw [hservices, serviceWrites_length]

/-- Witness of C20: the services web (one dependency) and foo (one
dependency) give four entries. -/
theorem C20_no_collision_witness :
    (buildCompose asciiUpper [("web", c5Web), ("foo", c7Foo)] []).Services.length = 4 ∧
    (GoMap.keys (buildCompose asciiUpper [("web", c5Web), ("foo", c7Foo)] []).Services).Nodup := by
  obtain ⟨_, _, h3, h4, h5⟩ :=
    C20_no_collision asciiUpper [("web", c5Web), ("foo", c7Foo)] [] (by decide) (by decide)
      (by decide)
  refine ⟨h5, ?_⟩
  rw [h4]
  exact h3

/-! ## parseLength -/

theorem atoi_eq_zero (s : String)
    (h : stripSign s.data = [] ∨ parseUintDigits 0 (stripSign s.data) = UintResult.syntaxErr) :
    atoi s = 0 := by
  unfold atoi
  unfold stripSign at h
  split at h
  · rename_i r hs
    simp only [hs]
    rcases h with h | h
    · subst h; rfl
    · cases r with
      | nil => rfl
      | cons a b => simp only [h]
  · rename_i r hs
    simp only [hs]
    rcases h with h | h
    · subst h; rfl
    · cases r with
      | nil => rfl
      | cons a b => simp only [h]
  · rename_i r h1 h2
    rcases h with h | h
    · simp only [h]
    · cases hr : s.data with
      | nil => rfl
      | cons a b =>
        rw [hr] at h
        simp only [h]

theorem atoi_unsigned (s : String) (c : Char) (r : List Char) (hs : s.data = c :: r)
    (hp : c ≠ '+') (hm : c ≠ '-') :
    atoi s = match parseUintDigits 0 (c :: r) with
      | UintResult.syntaxErr => 0
      | UintResult.rangeErr => 2 ^ 63 - 1
      | UintResult.ok un => if un ≥ 2 ^ 63 then 2 ^ 63 - 1 else (un : Int) := by
  unfold atoi
  rw [hs]
  split
  · rename_i h; simp at h; exact absurd h.1 hp
  · rename_i h; simp at h; exact absurd h.1 hm
  · simp only []
    cases parseUintDigits 0 (c :: r) <;> simp

theorem trimPrefix_append (p t : String) : trimPrefix (p ++ t) p = t := by
  have h : hasPrefix (p ++ t) p = true := by
    unfold hasPrefix
    rw [String.data_append, List.isPrefixOf_iff_prefix]
    exact List.prefix_append _ _
  unfold trimPrefix
  rw [if_pos h]
  apply String.ext
  simp [String.data_append]

theorem trimSuffix_append (t q : String) : trimSuffix (t ++ q) q = t := by
  have h : hasSuffix (t ++ q) q = true := by
    unfold hasSuffix
    rw [String.data_append, List.isSuffixOf_iff_suffix]
    exact List.suffix_append _ _
  unfold trimSuffix
  rw [if_pos h]
  apply String.ext
  simp [String.data_append]

/-- On a placeholder text parseLength is Atoi of the text between the
sentinel and the closing braces. -/
theorem parseLength_between (mid : String) :
    parseLength (generatePrefix ++ mid ++ generateSuffix) = atoi mid := by
  unfold parseLength
  rw [String.append_assoc, trimPrefix_append, trimSuffix_append]

theorem digitVal_digitChar (d : Nat) (h : d < 10) :
    digitVal (Nat.digitChar d) = some d ∧ Nat.digitChar d ≠ '+' ∧ Nat.digitChar d ≠ '-' := by
  interval_cases d <;> decide

theorem digitVal_le (c : Char) (d : Nat) (h : digitVal c = some d) : d ≤ 9 := by
  unfold digitVal at h
  split at h
  · rename_i hc
    simp only [Option.some.injEq] at h
    omega
  · cases h

theorem toDigitsCore_eq (m : Nat) : ∀ (fuel : Nat) (ds : List Char), m < fuel →
    Nat.toDigitsCore 10 fuel m ds = Nat.toDigits 10 m ++ ds := by
  induction m using Nat.strong_induction_on with
  | _ m ih =>
    intro fuel ds hlt
    cases fuel with
    | zero => omega
    | succ f =>
      unfold Nat.toDigits
      simp only [Nat.toDigitsCore]
      by_cases h0 : m / 10 = 0
      · simp [h0]
      · simp only [h0, if_false]
        have hpos : 0 < m := by
          rcases Nat.eq_zero_or_pos m with h | h
          · rw [h] at h0
            simp at h0
          · exact h
        have hlt2 : m / 10 < m := Nat.div_lt_self hpos (by decide)
        rw [ih (m / 10) hlt2 f _ (by omega), ih (m / 10) hlt2 m _ hlt2]
        simp

theorem toDigits_small (m : Nat) (h : m < 10) : Nat.toDigits 10 m = [Nat.digitChar m] := by
  unfold Nat.toDigits
  simp only [Nat.toDigitsCore]
  have h0 : m / 10 = 0 := Nat.div_eq_of_lt h
  simp [h0, Nat.mod_eq_of_lt h]

theorem toDigits_large (m : Nat) (h : 10 ≤ m) :
    Nat.toDigits 10 m = Nat.toDigits 10 (m / 10) ++ [Nat.digitChar (m % 10)] := by
  have h0 : ¬ m / 10 = 0 := by
    intro e
    have := (Nat.div_eq_zero_iff (by decide : 0 < 10)).1 e
    omega
  have hlt2 : m / 10 < m := Nat.div_lt_self (by omega) (by decide)
  conv => lhs; unfold Nat.toDigits
  simp only [Nat.toDigitsCore, h0, if_false]
  exact toDigitsCore_eq (m / 10) m _ hlt2

theorem parseUintDigits_append (a b : List Char) (acc : Nat) :
    parseUintDigits acc (a ++ b) =
      match parseUintDigits acc a with
      | UintResult.ok n => parseUintDigits n b
      | UintResult.syntaxErr => UintResult.syntaxErr
      | UintResult.rangeErr => UintResult.rangeErr := by
  induction a generalizing acc with
  | nil => simp [parseUintDigits]
  | cons c cs ih =>
    simp only [List.cons_append, parseUintDigits]
    cases digitVal c with
    | none => rfl
    | some d =>
      simp only []
      split
      · rfl
      · split
        · rfl
        · exact ih _

/-- The digit loop reads back the decimal text of every number below 2^64. -/
theorem parseUintDigits_toDigits (n : Nat) (h : n < 2 ^ 64) :
    parseUintDigits 0 (Nat.toDigits 10 n) = UintResult.ok n := by
  induction n using Nat.strong_induction_on with
  | _ n ih =>
    by_cases hsmall : n < 10
    · rw [toDigits_small n hsmall]
      simp only [parseUintDigits, (digitVal_digitChar n hsmall).1]
      have h1 : ¬ (0 ≥ (2 ^ 64 - 1) / 10 + 1) := by norm_num
      have h2 : ¬ (0 * 10 + n > 2 ^ 64 - 1) := by omega
      simp only [h1, h2, if_false]
      simp
    · have hlarge : 10 ≤ n := by omega
      have hlt2 : n / 10 < n := Nat.div_lt_self (by omega) (by decide)
      rw [toDigits_large n hlarge, parseUintDigits_append, ih (n / 10) hlt2 (by omega)]
      simp only [parseUintDigits, (digitVal_digitChar (n % 10) (Nat.mod_lt _ (by decide))).1]
      have h1 : ¬ (n / 10 ≥ (2 ^ 64 - 1) / 10 + 1) := by omega
      have h2 : ¬ (n / 10 * 10 + n % 10 > 2 ^ 64 - 1) := by omega
      simp only [h1, h2, if_false]
      congr 1
      omega

theorem toDigits_head (n : Nat) :
    ∃ d r, d < 10 ∧ Nat.toDigits 10 n = Nat.digitChar d :: r := by
  induction n using Nat.strong_induction_on with
  | _ n ih =>
    by_cases hsmall : n < 10
    · exact ⟨n, [], hsmall, toDigits_small n hsmall⟩
    · have hlt2 : n / 10 < n := Nat.div_lt_self (by omega) (by decide)
      obtain ⟨d, r, hd, hr⟩ := ih (n / 10) hlt2
      refine ⟨d, r ++ [Nat.digitChar (n % 10)], hd, ?_⟩
      rw [toDigits_large n (by omega), hr]
      rfl

/-- Atoi reads back the text that Itoa writes for a number of the int range
that is not negative. -/
theorem atoi_itoa (n : Nat) (h : n < 2 ^ 63) : atoi (itoa (n : Int)) = (n : Int) := by
  have hdata : (itoa (n : Int)).data = Nat.toDigits 10 n := rfl
  obtain ⟨d, r, hd, hr⟩ := toDigits_head n
  have hc := digitVal_digitChar d hd
  rw [atoi_unsigned (itoa (n : Int)) (Nat.digitChar d) r (hdata.trans hr) hc.2.1 hc.2.2, ← hr,
    parseUintDigits_toDigits n (by omega)]
  have h1 : ¬ (n ≥ 2 ^ 63) := by omega
  simp only [h1, if_false]

/-- The digit loop reports a syntax error at the first character that is no
digit, when the digits before it cannot overflow. -/
theorem parseUintDigits_syntax (a : List Char) (c : Char) (b : List Char) (acc : Nat)
    (ha : ∀ x ∈ a, digitVal x ≠ none) (hc : digitVal c = none)
    (hbound : (acc + 1) * 10 ^ a.length ≤ 2 ^ 64) :
    parseUintDigits acc (a ++ c :: b) = UintResult.syntaxErr := by
  induction a generalizing acc with
  | nil => simp [parseUintDigits, hc]
  | cons x xs ih =>
    have hx := ha x (List.mem_cons_self _ _)
    cases hd : digitVal x with
    | none => exact absurd hd hx
    | some d =>
      have hd9 := digitVal_le x d hd
      have hpow : 1 ≤ 10 ^ xs.length := Nat.one_le_pow _ _ (by decide)
      have hb1 : (acc + 1) * 10 * 10 ^ xs.length ≤ 2 ^ 64 := by
        have : (acc + 1) * 10 ^ (x :: xs).length = (acc + 1) * 10 * 10 ^ xs.length := by
          rw [List.length_cons, pow_succ]
          ring
        rw [← this]
        exact hbound
      have hb2 : (acc + 1) * 10 ≤ 2 ^ 64 :=
        le_trans (Nat.le_mul_of_pos_right _ (by omega)) hb1
      have h1 : ¬ (acc ≥ (2 ^ 64 - 1) / 10 + 1) := by omega
      have h2 : ¬ (acc * 10 + d > 2 ^ 64 - 1) := by omega
      simp only [List.cons_append, parseUintDigits, hd, h1, h2, if_false]
      apply ih _ (fun y hy => ha y (List.mem_cons_of_mem _ hy))
      calc (acc * 10 + d + 1) * 10 ^ xs.length
          ≤ (acc + 1) * 10 * 10 ^ xs.length := Nat.mul_le_mul_right _ (by omega)
        _ ≤ 2 ^ 64 := hb1

/-- Counterexample to C18 as stated: the text of twenty digits 9 followed by
the letter x is no decimal integer, and parseLength returns the largest int
for it, because the digit loop of Atoi reports the overflow before it reaches
the letter. -/
theorem C18_parse_length_counterexample :
    'x' ∈ stripSign ("99999999999999999999x" : String).data ∧ digitVal 'x' = none ∧
    parseLength (generatePrefix ++ "99999999999999999999x" ++ generateSuffix) =
      9223372036854775807 := by
  decide

/-- C18 (amended): for every natural number n of the int range, parseLength
of the placeholder that carries the decimal text of n returns n; and for
every placeholder whose text between the sentinel and the closing braces is,
after an optional sign, empty or has a character that is no digit after at
most 19 digits, parseLength returns 0, so that generateRandomString returns
the empty string for it. -/
theorem C18_parse_length :
    (∀ n : Nat, n < 2 ^ 63 →
      parseLength (generatePrefix ++ itoa (n : Int) ++ generateSuffix) = (n : Int)) ∧
    (∀ mid : String,
      (stripSign mid.data = [] ∨
        ∃ (a : List Char) (c : Char) (b : List Char), stripSign mid.data = a ++ c :: b ∧
          (∀ x ∈ a, digitVal x ≠ none) ∧ digitVal c = none ∧ a.length ≤ 19) →
      parseLength (generatePrefix ++ mid ++ generateSuffix) = 0 ∧
      ∀ (rt : Runtime) (pos : Nat),
        generateRandomString rt pos
          (parseLength (generatePrefix ++ mid ++ generateSuffix)) = some (String.mk [], pos)) := by
  constructor
  · intro n hn
    rw [parseLength_between, atoi_itoa n hn]
  · intro mid hmid
    have hzero : parseLength (generatePrefix ++ mid ++ generateSuffix) = 0 := by
      rw [parseLength_between]
      apply atoi_eq_zero
      rcases hmid with h | ⟨a, c, b, hsplit, ha, hc, hlen⟩
      · exact Or.inl h
      · right
        rw [hsplit]
        apply parseUintDigits_syntax a c b 0 ha hc
        calc (0 + 1) * 10 ^ a.length = 10 ^ a.length := by simp
          _ ≤ 10 ^ 19 := Nat.pow_le_pow_right (by decide) hlen
          _ ≤ 2 ^ 64 := by norm_num
    refine ⟨hzero, ?_⟩
    intro rt pos
    rw [hzero]
    exact generateRandomString_zero rt pos

/-- Witness of C18: the placeholder of length 16 parses to 16, and the
placeholders that carry abc and the empty text parse to 0. -/
theorem C18_parse_length_witness :
    parseLength (generatePrefix ++ itoa (16 : Nat) ++ generateSuffix) = 16 ∧
    parseLength (generatePrefix ++ "abc" ++ generateSuffix) = 0 ∧
    parseLength (generatePrefix ++ "" ++ generateSuffix) = 0 :=
  ⟨C18_parse_length.1 16 (by norm_num),
    (C18_parse_length.2 "abc" (Or.inr ⟨[], 'a', ['b', 'c'], by decide, by decide, by decide,
      by decide⟩)).1,
    (C18_parse_length.2 "" (Or.inl (by decide))).1⟩

end Stilt
